import Mathlib

/-!
Shallow embedding of `src/lambda_function.py` (repository `ttt-lambda`), a
single AWS Lambda handler implementing a shared tic-tac-toe match over a
DynamoDB `connections` table and an API-Gateway websocket transport.

The embedding models:
  * the DynamoDB `connections` table as a list of records (one record per
    `connectionId`; `put_item` / `update_item` on the single-attribute schema
    `{connectionId, connType}` are both keyed upserts, `delete_item` removes
    by key);
  * Python string manipulation (`split`, `join`, `[0]`, f-strings, `int`)
    as total Lean functions over `String` that agree with Python on every
    input the handler can actually produce (the totalisations are noted at
    each definition);
  * the handler `lambda_handler` as a pure function from an inbound event
    and a table state to the new table state, the HTTP-style response, and
    the broadcast intent (the list of scanned connections plus the data
    packet); the broadcast loop itself, which performs one
    `post_to_connection` per scanned connection and in which a transport
    failure raises and aborts the remaining sends, is modelled separately by
    `broadcastLoop` over an explicit per-connection success oracle.
-/

/-- A row of the DynamoDB `connections` table: the key `connectionId` and the
string-encoded `connType` attribute (`"2"` spectator, `"0;m1,m2,..."` player
one with its move list, `"1;..."` player two). -/
structure Conn where
  connectionId : String
  connType : String
deriving Repr, DecidableEq

/-- The `connections` table state: the list of rows a `scan` returns. -/
abbrev Store := List Conn

/-- Keyed upsert: DynamoDB `put_item` replaces the whole item stored under the
key, or creates it when absent.  Keys are unique in DynamoDB; on a list with
duplicate keys this replaces the first matching row. -/
def put_item : Store → String → String → Store
  | [], cid, ct => [⟨cid, ct⟩]
  | c :: rest, cid, ct =>
    if c.connectionId = cid then ⟨cid, ct⟩ :: rest
    else c :: put_item rest cid ct

/-- DynamoDB `update_item` with `SET connType = :t`: on the two-attribute
schema `{connectionId, connType}` this coincides with `put_item` (it also
creates the item when the key is absent). -/
def update_item (tbl : Store) (cid ct : String) : Store :=
  put_item tbl cid ct

/-- DynamoDB `delete_item`: remove the row stored under the key. -/
def delete_item (tbl : Store) (cid : String) : Store :=
  tbl.filter (fun c => ¬ c.connectionId = cid)

/-- The `connType` attribute currently stored under a key, if any. -/
def connTypeOf (tbl : Store) (cid : String) : Option String :=
  (tbl.find? (fun c => c.connectionId = cid)).map (fun c => c.connType)

/-- Python `s[0]` on a string, totalised: the first character, or `'A'` on the
empty string (where Python would raise `IndexError`; the handler never stores
an empty `connType`). -/
def pyFirst (s : String) : Char :=
  s.toList.headD 'A'

/-- Python `s.split(sep)` for a one-character separator, on `List Char`:
splits at every occurrence and keeps empty pieces, so the result is always
nonempty and `splitChar sep [] = [[]]` just as `"".split(sep) == [""]`. -/
def splitChar (sep : Char) : List Char → List (List Char)
  | [] => [[]]
  | c :: rest =>
    let r := splitChar sep rest
    if c = sep then [] :: r
    else (c :: r.headD []) :: r.tail

/-- Python `s.split(sep)` for the one-character separators `";"` and `","`
used by the handler. -/
def pySplit (s : String) (sep : Char) : List String :=
  (splitChar sep s.toList).map List.asString

/-- Python `",".join(xs)`. -/
def joinComma : List String → String
  | [] => ""
  | [x] => x
  | x :: y :: xs => x ++ "," ++ joinComma (y :: xs)

/-- Python `int(x)`, totalised over digit strings by Horner evaluation of the
character codes: agrees with `int` on every decimal-digit string (in
particular on the canonical board positions `"0"`..`"8"`); Python raises on
other inputs, which the spec declares a caller contract violation. -/
def pyInt (s : String) : Nat :=
  s.toList.foldl (fun n c => n * 10 + (c.toNat - 48)) 0

/-- Python f-string rendering `f"{n}"` of a natural number. -/
def natStr (n : Nat) : String :=
  (Nat.toDigits 10 n).asString

/-- The move list encoded in a `connType` string: the text after the first
`";"`, split on `","` when nonempty (`lambda_function.py` lines 26-28 and
33-35).  Python indexes `split(";")[1]`, which raises when no `";"` is
present; the handler only reads moves from `connType`s it wrote with a `";"`,
and the totalisation returns `[]` there. -/
def movesOf (connType : String) : List String :=
  if (pySplit connType ';').getD 1 "" ≠ "" then
    pySplit ((pySplit connType ';').getD 1 "") ',' else []

/-- Accumulator of the scan loop of `scan_conns` (lines 19-35): ids and move
lists of the players found so far. -/
structure ScanAcc where
  p1Id : String
  p2Id : String
  p1Moves : List String
  p2Moves : List String
deriving Repr, DecidableEq

/-- One iteration of the `for conn in conns` loop of `scan_conns` (lines
22-35): a row whose `connType` starts with `"0"` (resp. `"1"`) overwrites the
player-one (resp. player-two) id and move list; any other row is skipped. -/
def scanStep (acc : ScanAcc) (conn : Conn) : ScanAcc :=
  if pyFirst conn.connType = '0' then
    { acc with p1Id := conn.connectionId, p1Moves := movesOf conn.connType }
  else if pyFirst conn.connType = '1' then
    { acc with p2Id := conn.connectionId, p2Moves := movesOf conn.connType }
  else acc

/-- Result tuple of `scan_conns` (line 45), with the source's names. -/
structure ScanResult where
  avail : List Nat
  p1Id : String
  p2Id : String
  p1Moves : List String
  p2Moves : List String
deriving Repr, DecidableEq

/-- `scan_conns` (lines 8-45): fold the scan loop over the table rows, then
build `avail` (`0` iff no player-one id was found, `1` iff no player-two id
was found, always `2`). -/
def scan_conns (conns : List Conn) : ScanResult :=
  let r := conns.foldl scanStep ⟨"", "", [], []⟩
  { avail := (if r.p1Id = "" then [0] else []) ++
      (if r.p2Id = "" then [1] else []) ++ [2]
    p1Id := r.p1Id
    p2Id := r.p2Id
    p1Moves := r.p1Moves
    p2Moves := r.p2Moves }

/-- The chat/announcement payload `data["newMessage"]` when nonempty. -/
structure NewMessage where
  senderId : String
  chatMessage : String
deriving Repr, DecidableEq

/-- The `data` packet assembled at lines 86-93 and broadcast to every
connection; `newMessage = none` models the initial empty dict `{}`. -/
structure Data where
  avail : List Nat
  p1Id : String
  p2Id : String
  p1Moves : List String
  p2Moves : List String
  newMessage : Option NewMessage
deriving Repr, DecidableEq

/-- Modelled from the spec: the file `config.py`, imported by
`lambda_function.py` for `_WINNING_COMBOS`, is not under `src/`; the spec
fixes the catalogue as the 8 winning triples of the 3x3 row-major board —
3 rows, 3 columns, 2 diagonals. -/
def _WINNING_COMBOS : List (List Nat) :=
  [[0, 1, 2], [3, 4, 5], [6, 7, 8],
   [0, 3, 6], [1, 4, 7], [2, 5, 8],
   [0, 4, 8], [2, 4, 6]]

/-- Result of the `makePlay` route body (lines 113-197): the two early-return
rejections, or the played move with the `decision` string (`""`, `"won"` or
`"tied"`), the updated table and the updated `data` packet. -/
inductive PlayOutcome where
  | ineligible
  | moveAlreadyMade
  | played (decision : String) (store : Store) (data : Data)
deriving Repr, DecidableEq

/-- Lines 132-141, effect on `data`: append `message` to the acting player's
move list.  The source uses two independent `if`s (not `elif`), so both lists
are appended to in the degenerate case `connection_id = p1Id = p2Id`. -/
def playData2 (connection_id message : String) (data : Data) : Data :=
  let d1 := if connection_id = data.p1Id then
    { data with p1Moves := data.p1Moves ++ [message] } else data
  if connection_id = data.p2Id then
    { d1 with p2Moves := d1.p2Moves ++ [message] } else d1

/-- Lines 132-141, the `moves_str` variable: the `connType` encoding of the
acting player's updated move list.  In the source it is set by the first `if`
(`connection_id == p1_id`) and overwritten by the second (`connection_id ==
p2_id`); Python leaves it undefined when neither fires, which eligibility
rules out, and the totalisation returns `""` there. -/
def playMovesStr (connection_id message : String) (data : Data) : String :=
  if connection_id = data.p2Id then
    "1;" ++ joinComma (playData2 connection_id message data).p2Moves
  else if connection_id = data.p1Id then
    "0;" ++ joinComma (playData2 connection_id message data).p1Moves
  else ""

/-- Lines 132-141, the `check_arr` variable: the acting player's updated move
list (initialised to `[]`, overwritten by the same two `if`s). -/
def playCheckArr (connection_id message : String) (data : Data) : List String :=
  if connection_id = data.p2Id then (playData2 connection_id message data).p2Moves
  else if connection_id = data.p1Id then (playData2 connection_id message data).p1Moves
  else []

/-- Lines 143-159, the `decision` variable: with `check_set` the set of
integer positions of `check_arr`, nothing is evaluated below 3 distinct
positions; then the win scan over `_WINNING_COMBOS` (first subset hit sets
`"won"`), then the tie check `decision != "won" and total == 9`. -/
def playDecision (connection_id message : String) (data : Data) : String :=
  if 3 ≤ (((playCheckArr connection_id message data).map pyInt).dedup).length then
    if _WINNING_COMBOS.any (fun combo => combo.all (fun p =>
        (((playCheckArr connection_id message data).map pyInt).dedup).contains p)) then
      "won"
    else if (playData2 connection_id message data).p1Moves.length +
        (playData2 connection_id message data).p2Moves.length = 9 then "tied"
    else ""
  else ""

/-- Lines 163-176: on a decision, both player rows are reset to spectator
`connType "2"` (an upsert, so a missing player id creates a row). -/
def terminalStore (tbl : Store) (data : Data) : Store :=
  update_item (update_item tbl data.p1Id "2") data.p2Id "2"

/-- Lines 161-189: the fresh `data` packet built on a decision, with the
`winner = connection_id` / `loser` announcement from sender `"GAME"`. -/
def terminalData (connection_id decision : String) (data : Data) : Data :=
  { avail := [0, 1, 2], p1Id := "", p2Id := "", p1Moves := [], p2Moves := []
    newMessage := some ⟨"GAME",
      connection_id ++ " has " ++ decision ++ " against " ++
        (if data.p1Id = connection_id then data.p2Id else data.p1Id) ++ "!"⟩ }

/-- The `makePlay` route body (lines 113-197): eligibility check, duplicate
check, move application, decision evaluation; on a decision the terminal
reset, otherwise the `moves_str` upsert keyed to the acting connection
(lines 191-197). -/
def makePlayRoute (connection_id message : String) (data : Data) (tbl : Store) :
    PlayOutcome :=
  if connection_id ≠ data.p1Id ∧ connection_id ≠ data.p2Id then
    .ineligible
  else if message ∈ data.p1Moves ∨ message ∈ data.p2Moves then
    .moveAlreadyMade
  else if playDecision connection_id message data ≠ "" then
    .played (playDecision connection_id message data)
      (terminalStore tbl data)
      (terminalData connection_id (playDecision connection_id message data) data)
  else
    .played "" (update_item tbl connection_id (playMovesStr connection_id message data))
      (playData2 connection_id message data)

/-- The inbound websocket events routed by `lambda_handler` via `routeKey`. -/
inductive Event where
  | connect (cid : String)
  | disconnect (cid : String)
  | joinGame (cid : String)
  | makePlay (cid : String) (message : String)
  | sendMessage (cid : String) (message : String)
deriving Repr, DecidableEq

/-- The connection id carried by an inbound event
(`event["requestContext"]["connectionId"]`). -/
def Event.connectionId : Event → String
  | .connect c => c
  | .disconnect c => c
  | .joinGame c => c
  | .makePlay c _ => c
  | .sendMessage c _ => c

/-- The `{statusCode, headers.status, body}` response dict, reduced to the
fields the handler varies. -/
structure Response where
  status : String
  body : String
deriving Repr, DecidableEq

/-- Response at lines 212-217. -/
def successResp : Response := ⟨"Success", "Lambda executed successfully."⟩

/-- Early-return response at lines 116-121. -/
def ineligibleResp : Response := ⟨"Failure", "User ineligible to make play."⟩

/-- Early-return response at lines 126-130. -/
def dupResp : Response := ⟨"Failure", "Move already made!"⟩

/-- Result of one `lambda_handler` call: the new table state, the response,
and the broadcast intent — `some (conns, data)` when control reaches the
broadcast loop at lines 204-210 (the scanned connection list and the packet
sent to each of them), `none` when the handler returns before it
(`$connect`, and the two `makePlay` rejections). -/
structure HandlerResult where
  store : Store
  response : Response
  broadcast : Option (List Conn × Data)
deriving Repr, DecidableEq

/-- `lambda_handler` (lines 48-217) as a pure state transformer.  `$connect`
creates the spectator row and returns without broadcasting; every other route
first applies `$disconnect`'s delete if applicable, re-scans the table,
builds `data`, runs its route body, and broadcasts `data` to the scanned
connections. -/
def lambda_handler (ev : Event) (tbl : Store) : HandlerResult :=
  match ev with
  | .connect cid => ⟨put_item tbl cid "2", successResp, none⟩
  | _ =>
    let tbl1 := match ev with
      | .disconnect cid => delete_item tbl cid
      | _ => tbl
    let conns := tbl1
    let s := scan_conns conns
    let data : Data :=
      ⟨s.avail, s.p1Id, s.p2Id, s.p1Moves, s.p2Moves, none⟩
    match ev with
    | .joinGame cid =>
      if 0 ∈ s.avail ∨ 1 ∈ s.avail then
        let tbl2 := update_item tbl1 cid (natStr (s.avail.headD 2) ++ ";")
        let p_id := s.avail.headD 2
        let avail2 := s.avail.tail
        let data2 := if p_id = 0 then { data with p1Id := cid, avail := avail2 }
          else { data with p2Id := cid, avail := avail2 }
        ⟨tbl2, successResp, some (conns, data2)⟩
      else ⟨tbl1, successResp, some (conns, data)⟩
    | .makePlay cid msg =>
      match makePlayRoute cid msg data tbl1 with
      | .ineligible => ⟨tbl1, ineligibleResp, none⟩
      | .moveAlreadyMade => ⟨tbl1, dupResp, none⟩
      | .played _ tbl2 data2 => ⟨tbl2, successResp, some (conns, data2)⟩
    | .sendMessage cid msg =>
      ⟨tbl1, successResp, some (conns, { data with newMessage := some ⟨cid, msg⟩ })⟩
    | _ => ⟨tbl1, successResp, some (conns, data)⟩

/-- The broadcast loop at lines 204-210, relative to a per-connection
transport success oracle: `post_to_connection` is attempted for each scanned
connection in order; the source wraps the call in no handler, so the first
failing send raises out of the loop.  Returns the ids that were delivered
and the id whose send raised, if any. -/
def broadcastLoop (sendOk : String → Bool) : List Conn → List String × Option String
  | [] => ([], none)
  | c :: rest =>
    if sendOk c.connectionId then
      let r := broadcastLoop sendOk rest
      (c.connectionId :: r.1, r.2)
    else ([], some c.connectionId)

/-- The table state reached by handling a sequence of inbound events starting
from the empty `connections` table. -/
def runEvents (evs : List Event) : Store :=
  evs.foldl (fun tbl ev => (lambda_handler ev tbl).store) []
/-! ### Characterisation of the makePlay route body -/

/-- The body rejects with the eligibility error exactly when the caller is
neither player id (lines 115-121). -/
theorem makePlayRoute_eq_ineligible_iff (cid msg : String) (d : Data) (tbl : Store) :
    makePlayRoute cid msg d tbl = .ineligible ↔ cid ≠ d.p1Id ∧ cid ≠ d.p2Id := by
  constructor
  · intro h
    by_cases h1 : cid ≠ d.p1Id ∧ cid ≠ d.p2Id
    · exact h1
    · exfalso
      by_cases h2 : msg ∈ d.p1Moves ∨ msg ∈ d.p2Moves
      · rw [makePlayRoute, if_neg h1, if_pos h2] at h
        exact PlayOutcome.noConfusion h
      · by_cases h3 : playDecision cid msg d ≠ ""
        · rw [makePlayRoute, if_neg h1, if_neg h2, if_pos h3] at h
          exact PlayOutcome.noConfusion h
        · rw [makePlayRoute, if_neg h1, if_neg h2, if_neg h3] at h
          exact PlayOutcome.noConfusion h
  · intro h1
    rw [makePlayRoute, if_pos h1]

/-- The body rejects with the duplicate error exactly when the caller passes
eligibility and the position is already in a move list (lines 124-130). -/
theorem makePlayRoute_eq_dup_iff (cid msg : String) (d : Data) (tbl : Store) :
    makePlayRoute cid msg d tbl = .moveAlreadyMade ↔
      (cid = d.p1Id ∨ cid = d.p2Id) ∧ (msg ∈ d.p1Moves ∨ msg ∈ d.p2Moves) := by
  constructor
  · intro h
    by_cases h1 : cid ≠ d.p1Id ∧ cid ≠ d.p2Id
    · rw [makePlayRoute, if_pos h1] at h
      exact absurd h (by simp)
    · by_cases h2 : msg ∈ d.p1Moves ∨ msg ∈ d.p2Moves
      · exact ⟨by tauto, h2⟩
      · exfalso
        by_cases h3 : playDecision cid msg d ≠ ""
        · rw [makePlayRoute, if_neg h1, if_neg h2, if_pos h3] at h
          exact PlayOutcome.noConfusion h
        · rw [makePlayRoute, if_neg h1, if_neg h2, if_neg h3] at h
          exact PlayOutcome.noConfusion h
  · intro ⟨h1, h2⟩
    rw [makePlayRoute, if_neg (by tauto), if_pos h2]

/-- A caller that passes both checks always reaches one of the two `played`
branches. -/
theorem makePlayRoute_played (cid msg : String) (d : Data) (tbl : Store)
    (h1 : cid = d.p1Id ∨ cid = d.p2Id)
    (h2 : msg ∉ d.p1Moves) (h3 : msg ∉ d.p2Moves) :
    makePlayRoute cid msg d tbl =
      if playDecision cid msg d ≠ "" then
        .played (playDecision cid msg d) (terminalStore tbl d)
          (terminalData cid (playDecision cid msg d) d)
      else
        .played "" (update_item tbl cid (playMovesStr cid msg d))
          (playData2 cid msg d) := by
  rw [makePlayRoute, if_neg (by tauto), if_neg (by tauto)]

/-! ### Claim theorems: C3, C9, C8 -/

/-- The `data` packet the handler assembles from a table scan (lines 84-93),
before any route-specific change. -/
def dataOf (tbl : Store) : Data :=
  ⟨(scan_conns tbl).avail, (scan_conns tbl).p1Id, (scan_conns tbl).p2Id,
    (scan_conns tbl).p1Moves, (scan_conns tbl).p2Moves, none⟩

/-- Reduction of the handler on the `makePlay` route: delegate to the route
body over the scanned data. -/
theorem lambda_handler_makePlay (tbl : Store) (cid msg : String) :
    lambda_handler (.makePlay cid msg) tbl =
      match makePlayRoute cid msg (dataOf tbl) tbl with
      | .ineligible => ⟨tbl, ineligibleResp, none⟩
      | .moveAlreadyMade => ⟨tbl, dupResp, none⟩
      | .played _ tbl2 data2 => ⟨tbl2, successResp, some (tbl, data2)⟩ := by
  rw [lambda_handler, dataOf]

/-- Claim C3: `makePlay(connectionId, position)` fails with the
ineligible-player rejection exactly when `connectionId` is neither the
current player-one id nor the current player-two id; it fails with the
move-already-made rejection exactly when it passes the eligibility check and
the position already appears in either player's move sequence (so the
eligibility check comes strictly first and a duplicate position from a
non-player still reports ineligibility); and a failing check returns the
rejection to the caller with the store unchanged and no broadcast to any
connection. -/
theorem C3_makePlay_rejections (tbl : Store) (cid msg : String) :
    (lambda_handler (.makePlay cid msg) tbl = ⟨tbl, ineligibleResp, none⟩ ↔
      cid ≠ (dataOf tbl).p1Id ∧ cid ≠ (dataOf tbl).p2Id) ∧
    (lambda_handler (.makePlay cid msg) tbl = ⟨tbl, dupResp, none⟩ ↔
      (cid = (dataOf tbl).p1Id ∨ cid = (dataOf tbl).p2Id) ∧
        (msg ∈ (dataOf tbl).p1Moves ∨ msg ∈ (dataOf tbl).p2Moves)) := by
  have hresp1 : successResp ≠ ineligibleResp := by decide
  have hresp2 : successResp ≠ dupResp := by decide
  have hresp3 : ineligibleResp ≠ dupResp := by decide
  rw [lambda_handler_makePlay]
  rcases hmp : makePlayRoute cid msg (dataOf tbl) tbl with _ | _ | ⟨dec, tbl2, data2⟩
  · rw [makePlayRoute_eq_ineligible_iff] at hmp
    refine ⟨by simp [hmp], ⟨fun h => ?_, fun h => ?_⟩⟩
    · exact absurd (congrArg HandlerResult.response h) hresp3
    · exact absurd h.1 (by tauto)
  · rw [makePlayRoute_eq_dup_iff] at hmp
    refine ⟨⟨fun h => ?_, fun h => ?_⟩, by simp [hmp]⟩
    · exact absurd (congrArg HandlerResult.response h) hresp3.symm
    · exact absurd hmp.1 (by tauto)
  · refine ⟨⟨fun h => ?_, fun h => ?_⟩, ⟨fun h => ?_, fun h => ?_⟩⟩
    · exact absurd (congrArg HandlerResult.response h) hresp1
    · have h2 := (makePlayRoute_eq_ineligible_iff cid msg (dataOf tbl) tbl).mpr h
      rw [hmp] at h2
      exact PlayOutcome.noConfusion h2
    · exact absurd (congrArg HandlerResult.response h) hresp2
    · have h2 := (makePlayRoute_eq_dup_iff cid msg (dataOf tbl) tbl).mpr h
      rw [hmp] at h2
      exact PlayOutcome.noConfusion h2

/-- Claim C9: the handler enforces no turn alternation — whenever the caller
is a current player and the position appears in neither move sequence, the
move is accepted and applied (the route body reaches a `played` result), with
no condition on who moved last. -/
theorem C9_no_turn_alternation (cid msg : String) (d : Data) (tbl : Store)
    (h1 : cid = d.p1Id ∨ cid = d.p2Id)
    (h2 : msg ∉ d.p1Moves) (h3 : msg ∉ d.p2Moves) :
    ∃ dec tbl2 data2, makePlayRoute cid msg d tbl = .played dec tbl2 data2 := by
  rw [makePlayRoute_played cid msg d tbl h1 h2 h3]
  by_cases h : playDecision cid msg d ≠ ""
  · rw [if_pos h]
    exact ⟨_, _, _, rfl⟩
  · rw [if_neg h]
    exact ⟨_, _, _, rfl⟩

/-- Witness for C9: player one makes a second consecutive move (its own move
`"0"` was the immediately preceding move of the game) and the move is still
accepted. -/
theorem C9_no_turn_alternation_witness :
    ∃ dec tbl2 data2,
      makePlayRoute "A" "1" ⟨[2], "A", "B", ["0"], [], none⟩ [⟨"A", "0;0"⟩, ⟨"B", "1;"⟩] =
        .played dec tbl2 data2 :=
  C9_no_turn_alternation "A" "1" ⟨[2], "A", "B", ["0"], [], none⟩ [⟨"A", "0;0"⟩, ⟨"B", "1;"⟩]
    (Or.inl rfl) (by decide) (by decide)

/-- Counterexample to claim C8 as stated: with two known connections `A`, `B`
and a transport that fails only for `A`, the broadcast loop (which wraps
`post_to_connection` in no handler, so the first failure raises) never sends
the snapshot to `B`. -/
theorem C8_counterexample :
    (broadcastLoop (fun cid => cid != "A") [⟨"A", "2"⟩, ⟨"B", "2"⟩]).1 = [] ∧
    "B" ∉ (broadcastLoop (fun cid => cid != "A") [⟨"A", "2"⟩, ⟨"B", "2"⟩]).1 ∧
    (⟨"B", "2"⟩ : Conn) ∈ [(⟨"A", "2"⟩ : Conn), ⟨"B", "2"⟩] ∧
    (fun cid => cid != "A") "B" = true := by
  refine ⟨rfl, by simp [broadcastLoop], by simp, rfl⟩

/-- Claim C8 (amended): a delivery failure halts the broadcast loop — the
snapshot is delivered exactly to the longest prefix of the known-connection
list on which the transport succeeds, and the loop aborts at the first
failing connection (connections after it receive nothing). -/
theorem C8_amended_broadcast_halts (sendOk : String → Bool) (conns : List Conn) :
    (broadcastLoop sendOk conns).1 =
      (conns.takeWhile (fun c => sendOk c.connectionId)).map Conn.connectionId ∧
    (broadcastLoop sendOk conns).2 =
      ((conns.dropWhile (fun c => sendOk c.connectionId)).head?).map Conn.connectionId := by
  induction conns with
  | nil => exact ⟨rfl, rfl⟩
  | cons c rest ih =>
    by_cases h : sendOk c.connectionId
    · simp [broadcastLoop, h, List.takeWhile_cons, List.dropWhile_cons, ih.1, ih.2]
    · simp [broadcastLoop, h, List.takeWhile_cons, List.dropWhile_cons]

/-! ### Store lookup lemmas and the terminal reset (C4) -/

/-- Upserting a key stores exactly the new attribute under that key. -/
theorem connTypeOf_put_self (tbl : Store) (cid ct : String) :
    connTypeOf (put_item tbl cid ct) cid = some ct := by
  induction tbl with
  | nil => simp [put_item, connTypeOf]
  | cons c rest ih =>
    by_cases h : c.connectionId = cid
    · simp [put_item, h, connTypeOf]
    · simp only [put_item, if_neg h]
      simpa [connTypeOf, List.find?, h] using ih

/-- Upserting a key leaves every other key's attribute unchanged. -/
theorem connTypeOf_put_ne (tbl : Store) (cid ct other : String) (h : other ≠ cid) :
    connTypeOf (put_item tbl cid ct) other = connTypeOf tbl other := by
  induction tbl with
  | nil => simp [put_item, connTypeOf, h, Ne.symm h]
  | cons c rest ih =>
    by_cases hc : c.connectionId = cid
    · simp [put_item, hc, connTypeOf, List.find?, h, Ne.symm h]
    · by_cases ho : c.connectionId = other
      · simp [put_item, hc, connTypeOf, List.find?, ho, h, Ne.symm h]
      · simp only [put_item, if_neg hc]
        simpa [connTypeOf, List.find?, ho] using ih

/-- Every `played` result carries the `decision` value of `playDecision` and
implies that both checks passed. -/
theorem makePlayRoute_played_decision (cid msg : String) (d : Data) (tbl : Store)
    (dec : String) (tbl2 : Store) (data2 : Data)
    (hres : makePlayRoute cid msg d tbl = .played dec tbl2 data2) :
    dec = playDecision cid msg d ∧ (cid = d.p1Id ∨ cid = d.p2Id) ∧
      msg ∉ d.p1Moves ∧ msg ∉ d.p2Moves := by
  by_cases h1 : cid ≠ d.p1Id ∧ cid ≠ d.p2Id
  · rw [makePlayRoute, if_pos h1] at hres
    exact PlayOutcome.noConfusion hres
  · by_cases h2 : msg ∈ d.p1Moves ∨ msg ∈ d.p2Moves
    · rw [makePlayRoute, if_neg h1, if_pos h2] at hres
      exact PlayOutcome.noConfusion hres
    · by_cases h3 : playDecision cid msg d ≠ ""
      · rw [makePlayRoute, if_neg h1, if_neg h2, if_pos h3] at hres
        obtain ⟨hdec, -, -⟩ := PlayOutcome.played.inj hres
        exact ⟨hdec.symm, by tauto, by tauto, by tauto⟩
      · rw [makePlayRoute, if_neg h1, if_neg h2, if_neg h3] at hres
        obtain ⟨hdec, -, -⟩ := PlayOutcome.played.inj hres
        rw [not_not] at h3
        exact ⟨hdec.symm.trans h3.symm, by tauto, by tauto, by tauto⟩

/-- The terminal branch of a `played` result: decision nonempty forces the
reset store and the reset data packet. -/
theorem makePlayRoute_terminal (cid msg : String) (d : Data) (tbl : Store)
    (dec : String) (tbl2 : Store) (data2 : Data)
    (hres : makePlayRoute cid msg d tbl = .played dec tbl2 data2)
    (hdec : dec ≠ "") :
    tbl2 = terminalStore tbl d ∧ data2 = terminalData cid dec d := by
  obtain ⟨hd, h1, h2, h3⟩ := makePlayRoute_played_decision cid msg d tbl dec tbl2 data2 hres
  rw [makePlayRoute, if_neg (by tauto), if_neg (by tauto), if_pos (hd ▸ hdec)] at hres
  obtain ⟨hdec2, htbl, hdata⟩ := PlayOutcome.played.inj hres
  exact ⟨htbl.symm, by rw [← hdata, ← hd]⟩

/-- The in-progress branch of a `played` result: an empty decision forces the
moves-string upsert keyed to the caller and the appended data packet. -/
theorem makePlayRoute_inprogress (cid msg : String) (d : Data) (tbl : Store)
    (dec : String) (tbl2 : Store) (data2 : Data)
    (hres : makePlayRoute cid msg d tbl = .played dec tbl2 data2)
    (hdec : dec = "") :
    tbl2 = update_item tbl cid (playMovesStr cid msg d) ∧
      data2 = playData2 cid msg d := by
  obtain ⟨hd, h1, h2, h3⟩ := makePlayRoute_played_decision cid msg d tbl dec tbl2 data2 hres
  rw [makePlayRoute, if_neg (by tauto), if_neg (by tauto),
    if_neg (by rw [← hd, hdec]; simp)] at hres
  obtain ⟨-, htbl, hdata⟩ := PlayOutcome.played.inj hres
  exact ⟨htbl.symm, hdata.symm⟩

/-- The role a stored `connType` string denotes under the scan loop's
branching: `0` player one, `1` player two, anything else spectator. -/
def roleOf (ct : String) : Nat :=
  if pyFirst ct = '0' then 0 else if pyFirst ct = '1' then 1 else 2

/-- Claim C4: after any `makePlay` that produces a terminal outcome (decision
`"won"` or `"tied"`), both player ids' rows are set to the spectator
`connType "2"` (which carries the spectator role and an empty move list), and
the data packet produced for the broadcast has available roles `[0, 1, 2]`,
both player ids empty and both move lists empty. -/
theorem C4_terminal_reset (cid msg : String) (d : Data) (tbl : Store)
    (dec : String) (tbl2 : Store) (data2 : Data)
    (hres : makePlayRoute cid msg d tbl = .played dec tbl2 data2)
    (hdec : dec ≠ "") :
    connTypeOf tbl2 d.p1Id = some "2" ∧ connTypeOf tbl2 d.p2Id = some "2" ∧
    roleOf "2" = 2 ∧ movesOf "2" = [] ∧
    data2.avail = [0, 1, 2] ∧ data2.p1Id = "" ∧ data2.p2Id = "" ∧
    data2.p1Moves = [] ∧ data2.p2Moves = [] := by
  obtain ⟨htbl, hdata⟩ := makePlayRoute_terminal cid msg d tbl dec tbl2 data2 hres hdec
  subst htbl hdata
  refine ⟨?_, ?_, by decide, by decide, rfl, rfl, rfl, rfl, rfl⟩
  · by_cases h : d.p1Id = d.p2Id
    · rw [terminalStore, update_item, update_item, h]
      exact connTypeOf_put_self _ _ _
    · rw [terminalStore, update_item, update_item,
        connTypeOf_put_ne _ _ _ _ h, ]
      exact connTypeOf_put_self _ _ _
  · exact connTypeOf_put_self _ _ _

/-- Witness for C4: the top-row win `{0,1,2}` by player one resets both
player rows to `"2"` and produces the empty snapshot. -/
theorem C4_terminal_reset_witness :
    connTypeOf [(⟨"A", "2"⟩ : Conn), ⟨"B", "2"⟩] "A" = some "2" ∧
    connTypeOf [(⟨"A", "2"⟩ : Conn), ⟨"B", "2"⟩] "B" = some "2" ∧
    roleOf "2" = 2 ∧ movesOf "2" = [] ∧
    (Data.mk [0, 1, 2] "" "" [] []
        (some ⟨"GAME", "A has won against B!"⟩)).avail = [0, 1, 2] ∧
    (Data.mk [0, 1, 2] "" "" [] []
        (some ⟨"GAME", "A has won against B!"⟩)).p1Id = "" ∧
    (Data.mk [0, 1, 2] "" "" [] []
        (some ⟨"GAME", "A has won against B!"⟩)).p2Id = "" ∧
    (Data.mk [0, 1, 2] "" "" [] []
        (some ⟨"GAME", "A has won against B!"⟩)).p1Moves = [] ∧
    (Data.mk [0, 1, 2] "" "" [] []
        (some ⟨"GAME", "A has won against B!"⟩)).p2Moves = [] := by
  have h := C4_terminal_reset "A" "2" ⟨[2], "A", "B", ["0", "1"], ["3", "4"], none⟩
    [⟨"A", "0;0,1"⟩, ⟨"B", "1;3,4"⟩] "won" [⟨"A", "2"⟩, ⟨"B", "2"⟩]
    (Data.mk [0, 1, 2] "" "" [] [] (some ⟨"GAME", "A has won against B!"⟩))
    (by decide) (by decide)
  simpa using h

/-! ### Announcements (C7) -/

/-- Counterexample to claim C7 as stated: a full board with no winning triple
for the acting player yields decision `"tied"`, and the produced snapshot
carries an announcement naming the acting connection `"A"` and the other
player `"B"` together with the outcome kind — the tie path runs the same
announcement code as the win path, so a distinguishing player is named. -/
theorem C7_counterexample :
    makePlayRoute "A" "8"
        ⟨[2], "A", "B", ["0", "2", "3", "7"], ["1", "4", "5", "6"], none⟩
        [⟨"A", "0;0,2,3,7"⟩, ⟨"B", "1;1,4,5,6"⟩] =
      .played "tied" [⟨"A", "2"⟩, ⟨"B", "2"⟩]
        ⟨[0, 1, 2], "", "", [], [],
          some ⟨"GAME", "A has tied against B!"⟩⟩ := by
  decide

/-- Claim C7 (amended): every terminal outcome — Tied exactly like Won —
attaches the announcement from sender `"GAME"` with text
`"{actor} has {decision} against {other}!"`, naming the acting connection and
the other player id in both cases; no announcement is attached while the game
is in progress (the packet keeps the empty announcement it started with). -/
theorem C7_amended_announcement (cid msg : String) (d : Data) (tbl : Store)
    (dec : String) (tbl2 : Store) (data2 : Data)
    (hres : makePlayRoute cid msg d tbl = .played dec tbl2 data2) :
    (dec ≠ "" → data2.newMessage = some ⟨"GAME",
      cid ++ " has " ++ dec ++ " against " ++
        (if d.p1Id = cid then d.p2Id else d.p1Id) ++ "!"⟩) ∧
    (dec = "" → data2.newMessage = d.newMessage) := by
  constructor
  · intro hdec
    obtain ⟨-, hdata⟩ := makePlayRoute_terminal cid msg d tbl dec tbl2 data2 hres hdec
    rw [hdata, terminalData]
  · intro hdec
    obtain ⟨-, hdata⟩ := makePlayRoute_inprogress cid msg d tbl dec tbl2 data2 hres hdec
    subst hdata
    simp only [playData2]
    split <;> split <;> rfl

/-- Witness for C7 (amended), at the tied board of the counterexample: the
tie announcement names both connection ids. -/
theorem C7_amended_announcement_witness :
    (Data.mk [0, 1, 2] "" "" [] []
        (some ⟨"GAME", "A has tied against B!"⟩)).newMessage =
      some ⟨"GAME", "A" ++ " has " ++ "tied" ++ " against " ++
        (if ("A" : String) = "A" then "B" else "A") ++ "!"⟩ := by
  have h := (C7_amended_announcement "A" "8"
    ⟨[2], "A", "B", ["0", "2", "3", "7"], ["1", "4", "5", "6"], none⟩
    [⟨"A", "0;0,2,3,7"⟩, ⟨"B", "1;1,4,5,6"⟩] "tied" [⟨"A", "2"⟩, ⟨"B", "2"⟩]
    (Data.mk [0, 1, 2] "" "" [] [] (some ⟨"GAME", "A has tied against B!"⟩))
    (by decide)).1 (by decide)
  exact h

/-! ### Encoding roundtrip: the persisted moves string decodes to the move
list (needed for C6 and C1) -/

/-- The canonical encodings of a board position: the spec constrains
`message` to parse to an integer position 0-8, and the client sends the
position as its single-digit decimal text. -/
def validPos (s : String) : Bool :=
  ["0", "1", "2", "3", "4", "5", "6", "7", "8"].contains s

/-- Splitting a separator-free character list is the identity piece. -/
theorem splitChar_sepFree (sep : Char) (a : List Char) (h : ∀ c ∈ a, c ≠ sep) :
    splitChar sep a = [a] := by
  induction a with
  | nil => rfl
  | cons c rest ih =>
    have hc : c ≠ sep := h c (by simp)
    have hr : splitChar sep rest = [rest] := ih (fun x hx => h x (by simp [hx]))
    simp [splitChar, hr, hc]

/-- Splitting distributes over the first separator occurrence. -/
theorem splitChar_append (sep : Char) (a b : List Char) (h : ∀ c ∈ a, c ≠ sep) :
    splitChar sep (a ++ sep :: b) = a :: splitChar sep b := by
  induction a with
  | nil => simp [splitChar]
  | cons c rest ih =>
    have hc : c ≠ sep := h c (by simp)
    have hr := ih (fun x hx => h x (by simp [hx]))
    simp [splitChar, hr, hc]

/-- Every character of a comma-join is a comma or a character of a piece. -/
theorem joinComma_chars (l : List String) (c : Char) (hc : c ∈ (joinComma l).toList) :
    c = ',' ∨ ∃ m ∈ l, c ∈ m.toList := by
  induction l with
  | nil => exact absurd hc (by simp [joinComma, String.toList])
  | cons x rest ih =>
    cases rest with
    | nil => exact Or.inr ⟨x, by simp, hc⟩
    | cons y ys =>
      rw [joinComma] at hc
      have : c ∈ x.toList ∨ c = ',' ∨ c ∈ (joinComma (y :: ys)).toList := by
        have hdata : (x ++ "," ++ joinComma (y :: ys)).data =
            x.data ++ [','] ++ (joinComma (y :: ys)).data := by
          rw [String.data_append, String.data_append]
        have := hc
        rw [String.toList] at this ⊢
        rw [hdata] at this
        simpa using this
      rcases this with h | h | h
      · exact Or.inr ⟨x, by simp, h⟩
      · exact Or.inl h
      · rcases ih h with h2 | ⟨m, hm, hcm⟩
        · exact Or.inl h2
        · exact Or.inr ⟨m, by simp [hm], hcm⟩

/-- A valid position is one of the nine digit strings, so its characters are
digits: never a comma, a semicolon, or absent. -/
theorem validPos_chars (m : String) (hv : validPos m = true) :
    m ≠ "" ∧ ∀ c ∈ m.toList, c ≠ ',' ∧ c ≠ ';' := by
  have hm : m ∈ ["0", "1", "2", "3", "4", "5", "6", "7", "8"] := by
    simpa [validPos] using hv
  fin_cases hm <;> exact ⟨by decide, by decide⟩

/-- Splitting a comma-join of comma-free nonempty pieces recovers the
pieces. -/
theorem pySplit_joinComma (l : List String) (hne : l ≠ [])
    (h : ∀ m ∈ l, ∀ c ∈ m.toList, c ≠ ',') :
    pySplit (joinComma l) ',' = l := by
  induction l with
  | nil => exact absurd rfl hne
  | cons x rest ih =>
    cases rest with
    | nil =>
      rw [joinComma, pySplit, splitChar_sepFree ',' x.toList (h x (by simp))]
      have hx : x.data.asString = x := by cases x; rfl
      simp [hx]
    | cons y ys =>
      rw [joinComma, pySplit]
      have hdata : (x ++ "," ++ joinComma (y :: ys)).toList =
          x.toList ++ ',' :: (joinComma (y :: ys)).toList := by
        have hc : ("," : String).data = [','] := rfl
        rw [String.toList, String.data_append, String.data_append, hc]
        simp [String.toList]
      rw [hdata, splitChar_append ',' _ _ (fun c hc => (h x (by simp) c hc))]
      have hrest := ih (by simp) (fun m hm => h m (by simp [hm]))
      rw [pySplit] at hrest
      rw [List.map_cons, hrest]
      have hx : x.toList.asString = x := by cases x; rfl
      rw [hx]

/-- The comma-join of a nonempty list of valid positions is nonempty. -/
theorem joinComma_ne_empty (l : List String) (x : String) (rest : List String)
    (hl : l = x :: rest) (hv : ∀ m ∈ l, validPos m = true) :
    joinComma l ≠ "" := by
  subst hl
  obtain ⟨hx, -⟩ := validPos_chars x (hv x (by simp))
  cases rest with
  | nil =>
    rw [joinComma]
    exact hx
  | cons y ys =>
    rw [joinComma]
    intro hcontra
    have : (x ++ "," ++ joinComma (y :: ys)).data = [] := congrArg String.data hcontra
    rw [String.data_append, String.data_append] at this
    simp at this

/-- Decoding the persisted player encoding `"{tag};{comma-join}"` recovers
the move list, for any non-semicolon one-character tag and valid moves. -/
theorem movesOf_encode (tag : Char) (htag : tag ≠ ';') (l : List String)
    (hv : ∀ m ∈ l, validPos m = true) :
    movesOf (⟨[tag, ';']⟩ ++ joinComma l) = l := by
  have hjoin : ∀ c ∈ (joinComma l).toList, c ≠ ';' := by
    intro c hc
    rcases joinComma_chars l c hc with h | ⟨m, hm, hcm⟩
    · subst h
      decide
    · exact ((validPos_chars m (hv m hm)).2 c hcm).2
  have hdata : ((⟨[tag, ';']⟩ : String) ++ joinComma l).toList =
      [tag] ++ ';' :: (joinComma l).toList := by
    rw [String.toList, String.data_append]
    rfl
  rw [movesOf, pySplit, hdata,
    splitChar_append ';' [tag] _ (by simpa using htag)]
  cases l with
  | nil =>
    rw [joinComma, splitChar_sepFree ';' "".toList (by simp [String.toList])]
    rfl
  | cons x rest =>
    rw [splitChar_sepFree ';' (joinComma (x :: rest)).toList hjoin]
    have hne := joinComma_ne_empty (x :: rest) x rest rfl hv
    have hj : (joinComma (x :: rest)).toList.asString = joinComma (x :: rest) := by
      cases joinComma (x :: rest); rfl
    have hsplit := pySplit_joinComma (x :: rest) (by simp)
      (fun m hm c hc => ((validPos_chars m (hv m hm)).2 c hc).1)
    simp only [List.map_cons, List.map_nil, List.getD_cons_succ, List.getD_cons_zero, hj]
    rw [if_pos hne, hsplit]

/-! ### Move application and persistence (C6) -/

/-- Appending for player one: the update at lines 134-137 leaves independent
of the player-two branch. -/
theorem playData2_p1Moves (cid msg : String) (d : Data) (h : cid = d.p1Id) :
    (playData2 cid msg d).p1Moves = d.p1Moves ++ [msg] := by
  simp only [playData2]
  split <;> simp [h]

/-- Appending for player two: the update at lines 138-141. -/
theorem playData2_p2Moves (cid msg : String) (d : Data) (h : cid = d.p2Id) :
    (playData2 cid msg d).p2Moves = d.p2Moves ++ [msg] := by
  simp only [playData2]
  rw [if_pos h]
  split <;> rfl

/-- A non-actor list is untouched: player two's list when the caller is not
player two. -/
theorem playData2_p2Moves_of_ne (cid msg : String) (d : Data) (h : cid ≠ d.p2Id) :
    (playData2 cid msg d).p2Moves = d.p2Moves := by
  simp only [playData2]
  rw [if_neg h]
  split <;> rfl

/-- A non-actor list is untouched: player one's list when the caller is not
player one. -/
theorem playData2_p1Moves_of_ne (cid msg : String) (d : Data) (h : cid ≠ d.p1Id) :
    (playData2 cid msg d).p1Moves = d.p1Moves := by
  simp only [playData2]
  rw [if_neg h]
  split <;> rfl

/-- The persisted string for an acting player two. -/
theorem playMovesStr_p2 (cid msg : String) (d : Data) (h : cid = d.p2Id) :
    playMovesStr cid msg d = "1;" ++ joinComma (d.p2Moves ++ [msg]) := by
  rw [playMovesStr, if_pos h, playData2_p2Moves cid msg d h]

/-- The check list for an acting player two. -/
theorem playCheckArr_p2 (cid msg : String) (d : Data) (h : cid = d.p2Id) :
    playCheckArr cid msg d = d.p2Moves ++ [msg] := by
  rw [playCheckArr, if_pos h, playData2_p2Moves cid msg d h]

/-- The persisted string for an acting player one (who is not player two). -/
theorem playMovesStr_p1 (cid msg : String) (d : Data) (h2 : cid ≠ d.p2Id)
    (h1 : cid = d.p1Id) :
    playMovesStr cid msg d = "0;" ++ joinComma (d.p1Moves ++ [msg]) := by
  rw [playMovesStr, if_neg h2, if_pos h1, playData2_p1Moves cid msg d h1]

/-- The check list for an acting player one (who is not player two). -/
theorem playCheckArr_p1 (cid msg : String) (d : Data) (h2 : cid ≠ d.p2Id)
    (h1 : cid = d.p1Id) :
    playCheckArr cid msg d = d.p1Moves ++ [msg] := by
  rw [playCheckArr, if_neg h2, if_pos h1, playData2_p1Moves cid msg d h1]

/-- The persisted moves string decodes back to the acting player's updated
move list whenever all stored moves and the new move are canonical board
positions. -/
theorem movesOf_playMovesStr (cid msg : String) (d : Data)
    (hv1 : ∀ m ∈ d.p1Moves, validPos m = true)
    (hv2 : ∀ m ∈ d.p2Moves, validPos m = true)
    (hvm : validPos msg = true) :
    movesOf (playMovesStr cid msg d) = playCheckArr cid msg d := by
  by_cases h2 : cid = d.p2Id
  · rw [playMovesStr_p2 cid msg d h2, playCheckArr_p2 cid msg d h2]
    have : ("1;" : String) = ⟨['1', ';']⟩ := rfl
    rw [this]
    exact movesOf_encode '1' (by decide) (d.p2Moves ++ [msg])
      (by intro m hm; rcases List.mem_append.mp hm with h | h
          · exact hv2 m h
          · simp at h; rw [h]; exact hvm)
  · by_cases h1 : cid = d.p1Id
    · rw [playMovesStr_p1 cid msg d h2 h1, playCheckArr_p1 cid msg d h2 h1]
      have : ("0;" : String) = ⟨['0', ';']⟩ := rfl
      rw [this]
      exact movesOf_encode '0' (by decide) (d.p1Moves ++ [msg])
        (by intro m hm; rcases List.mem_append.mp hm with h | h
            · exact hv1 m h
            · simp at h; rw [h]; exact hvm)
    · rw [playMovesStr, if_neg h2, if_neg h1, playCheckArr, if_neg h2, if_neg h1]
      rfl

/-- Counterexample to claim C6 as stated: the winning move `"2"` by player
one `"A"` (moves `0,1` so far) passes both checks, and the handler reports
success — yet the store afterwards holds `"2"` (spectator) under `"A"`,
whose decoded move list is empty, not the updated move sequence
`["0","1","2"]` and not its encoding: the persist at lines 192-197 is
guarded by `decision == ""` and is skipped for every terminal outcome. -/
theorem C6_counterexample :
    lambda_handler (.makePlay "A" "2") [⟨"A", "0;0,1"⟩, ⟨"B", "1;3,4"⟩] =
      ⟨[⟨"A", "2"⟩, ⟨"B", "2"⟩], successResp,
        some ([⟨"A", "0;0,1"⟩, ⟨"B", "1;3,4"⟩],
          ⟨[0, 1, 2], "", "", [], [],
            some ⟨"GAME", "A has won against B!"⟩⟩)⟩ ∧
    connTypeOf [(⟨"A", "2"⟩ : Conn), ⟨"B", "2"⟩] "A" = some "2" ∧
    movesOf "2" = [] ∧ (([] : List String) ≠ ["0", "1", "2"]) ∧
    ("2" : String) ≠
      playMovesStr "A" "2" ⟨[2], "A", "B", ["0", "1"], ["3", "4"], none⟩ := by
  refine ⟨by decide, by decide, by decide, by decide, by decide⟩

/-- Claim C6 (amended): every `makePlay` that passes both checks appends the
position to the acting player's move sequence in the in-memory packet, but
the updated sequence is persisted to the store keyed to the acting connection
only when the produced outcome is in progress (`decision = ""`); a terminal
outcome instead persists the spectator reset of both player rows, leaving
the acting connection's row at `"2"` — spectator with an empty decoded move
list — so the appended sequence is never stored. -/
theorem C6_amended_persist (cid msg : String) (d : Data) (tbl : Store)
    (dec : String) (tbl2 : Store) (data2 : Data)
    (hres : makePlayRoute cid msg d tbl = .played dec tbl2 data2)
    (hv1 : ∀ m ∈ d.p1Moves, validPos m = true)
    (hv2 : ∀ m ∈ d.p2Moves, validPos m = true)
    (hvm : validPos msg = true) :
    ((cid = d.p1Id → (playData2 cid msg d).p1Moves = d.p1Moves ++ [msg]) ∧
     (cid = d.p2Id → (playData2 cid msg d).p2Moves = d.p2Moves ++ [msg])) ∧
    (dec = "" →
      data2 = playData2 cid msg d ∧
      tbl2 = update_item tbl cid (playMovesStr cid msg d) ∧
      connTypeOf tbl2 cid = some (playMovesStr cid msg d) ∧
      movesOf (playMovesStr cid msg d) = playCheckArr cid msg d) ∧
    (dec ≠ "" → tbl2 = terminalStore tbl d ∧
      connTypeOf tbl2 cid = some "2" ∧ movesOf "2" = []) := by
  refine ⟨⟨fun h => playData2_p1Moves cid msg d h,
    fun h => playData2_p2Moves cid msg d h⟩, fun hdec => ?_, fun hdec => ?_⟩
  · obtain ⟨htbl, hdata⟩ :=
      makePlayRoute_inprogress cid msg d tbl dec tbl2 data2 hres hdec
    refine ⟨hdata, htbl, ?_, movesOf_playMovesStr cid msg d hv1 hv2 hvm⟩
    rw [htbl, update_item]
    exact connTypeOf_put_self tbl cid (playMovesStr cid msg d)
  · obtain ⟨-, helig, -, -⟩ :=
      makePlayRoute_played_decision cid msg d tbl dec tbl2 data2 hres
    obtain ⟨htbl, -⟩ :=
      makePlayRoute_terminal cid msg d tbl dec tbl2 data2 hres hdec
    refine ⟨htbl, ?_, by decide⟩
    rw [htbl]
    simp only [terminalStore, update_item]
    by_cases h2 : cid = d.p2Id
    · rw [h2]
      exact connTypeOf_put_self _ _ _
    · have h1 : cid = d.p1Id := helig.resolve_right h2
      rw [connTypeOf_put_ne (put_item tbl d.p1Id "2") d.p2Id "2" cid h2, h1]
      exact connTypeOf_put_self tbl d.p1Id "2"

/-- Witness for C6 (amended): the in-progress move `"5"` by player one `"A"`
is appended and persisted as `"0;0,1,5"` under `"A"`. -/
theorem C6_amended_persist_witness :
    ((("A" : String) = "A" →
        (playData2 "A" "5" ⟨[2], "A", "B", ["0", "1"], ["3", "4"], none⟩).p1Moves =
          ["0", "1"] ++ ["5"]) ∧
     (("A" : String) = "B" →
        (playData2 "A" "5" ⟨[2], "A", "B", ["0", "1"], ["3", "4"], none⟩).p2Moves =
          ["3", "4"] ++ ["5"])) ∧
    (("" : String) = "" →
      (Data.mk [2] "A" "B" ["0", "1", "5"] ["3", "4"] none) =
        playData2 "A" "5" ⟨[2], "A", "B", ["0", "1"], ["3", "4"], none⟩ ∧
      ([(⟨"A", "0;0,1,5"⟩ : Conn), ⟨"B", "1;3,4"⟩] : Store) =
        update_item [⟨"A", "0;0,1"⟩, ⟨"B", "1;3,4"⟩] "A"
          (playMovesStr "A" "5" ⟨[2], "A", "B", ["0", "1"], ["3", "4"], none⟩) ∧
      connTypeOf [(⟨"A", "0;0,1,5"⟩ : Conn), ⟨"B", "1;3,4"⟩] "A" =
        some (playMovesStr "A" "5" ⟨[2], "A", "B", ["0", "1"], ["3", "4"], none⟩) ∧
      movesOf (playMovesStr "A" "5" ⟨[2], "A", "B", ["0", "1"], ["3", "4"], none⟩) =
        playCheckArr "A" "5" ⟨[2], "A", "B", ["0", "1"], ["3", "4"], none⟩) ∧
    (("" : String) ≠ "" →
      ([(⟨"A", "0;0,1,5"⟩ : Conn), ⟨"B", "1;3,4"⟩] : Store) =
        terminalStore [⟨"A", "0;0,1"⟩, ⟨"B", "1;3,4"⟩]
          ⟨[2], "A", "B", ["0", "1"], ["3", "4"], none⟩ ∧
      connTypeOf [(⟨"A", "0;0,1,5"⟩ : Conn), ⟨"B", "1;3,4"⟩] "A" = some "2" ∧
      movesOf "2" = []) :=
  C6_amended_persist "A" "5" ⟨[2], "A", "B", ["0", "1"], ["3", "4"], none⟩
    [⟨"A", "0;0,1"⟩, ⟨"B", "1;3,4"⟩] ""
    [⟨"A", "0;0,1,5"⟩, ⟨"B", "1;3,4"⟩]
    (Data.mk [2] "A" "B" ["0", "1", "5"] ["3", "4"] none)
    (by decide) (by decide) (by decide) (by decide)

/-! ### Outcome evaluation (C1) -/

/-- `pyInt` tells canonical positions apart. -/
theorem pyInt_inj_valid :
    ∀ a ∈ (["0", "1", "2", "3", "4", "5", "6", "7", "8"] : List String),
      ∀ b ∈ (["0", "1", "2", "3", "4", "5", "6", "7", "8"] : List String),
        pyInt a = pyInt b → a = b := by
  decide

/-- Claim C1: for every `makePlay` that passes the eligibility and duplicate
checks (a `played` result), the decision is `""` below 3 moves of the acting
player; it is `"won"` exactly when the acting player has made at least 3
moves and one of the 8 winning triples is included in the integer positions
of the acting player's updated move list; it is `"tied"` exactly when there
is no such win (win checked strictly before tie) and the total number of
moves by both players after the move equals 9; and nothing else occurs.
Stated for distinct player ids and canonical, duplicate-free stored moves,
as every reachable game state provides. -/
theorem C1_outcome_evaluation (cid msg : String) (d : Data) (tbl : Store)
    (dec : String) (tbl2 : Store) (data2 : Data)
    (hres : makePlayRoute cid msg d tbl = .played dec tbl2 data2)
    (hv1 : ∀ m ∈ d.p1Moves, validPos m = true)
    (hv2 : ∀ m ∈ d.p2Moves, validPos m = true)
    (hvm : validPos msg = true)
    (hnd1 : d.p1Moves.Nodup) (hnd2 : d.p2Moves.Nodup)
    (hne : d.p1Id ≠ d.p2Id) :
    ((playCheckArr cid msg d).length < 3 → dec = "") ∧
    (dec = "won" ↔ 3 ≤ (playCheckArr cid msg d).length ∧
      ∃ combo ∈ _WINNING_COMBOS, ∀ p ∈ combo,
        p ∈ (playCheckArr cid msg d).map pyInt) ∧
    (dec = "tied" ↔ 3 ≤ (playCheckArr cid msg d).length ∧
      ¬(∃ combo ∈ _WINNING_COMBOS, ∀ p ∈ combo,
        p ∈ (playCheckArr cid msg d).map pyInt) ∧
      d.p1Moves.length + d.p2Moves.length + 1 = 9) ∧
    (dec = "" ∨ dec = "won" ∨ dec = "tied") := by
  obtain ⟨hdec, helig, hm1, hm2⟩ :=
    makePlayRoute_played_decision cid msg d tbl dec tbl2 data2 hres
  subst hdec
  have hca : (playCheckArr cid msg d).Nodup ∧
      ∀ m ∈ playCheckArr cid msg d, validPos m = true := by
    by_cases h2 : cid = d.p2Id
    · rw [playCheckArr_p2 cid msg d h2]
      refine ⟨?_, ?_⟩
      · simp [List.nodup_append, hnd2, hm2]
      · intro m hm
        rcases List.mem_append.mp hm with h | h
        · exact hv2 m h
        · simp at h
          rw [h]
          exact hvm
    · have h1 : cid = d.p1Id := by tauto
      rw [playCheckArr_p1 cid msg d h2 h1]
      refine ⟨?_, ?_⟩
      · simp [List.nodup_append, hnd1, hm1]
      · intro m hm
        rcases List.mem_append.mp hm with h | h
        · exact hv1 m h
        · simp at h
          rw [h]
          exact hvm
  have hmapnodup : ((playCheckArr cid msg d).map pyInt).Nodup := by
    refine List.Nodup.map_on ?_ hca.1
    intro x hx y hy hxy
    refine pyInt_inj_valid x ?_ y ?_ hxy
    · simpa [validPos] using hca.2 x hx
    · simpa [validPos] using hca.2 y hy
  have hdedup : ((playCheckArr cid msg d).map pyInt).dedup =
      (playCheckArr cid msg d).map pyInt := List.dedup_eq_self.mpr hmapnodup
  have hlen : (((playCheckArr cid msg d).map pyInt).dedup).length =
      (playCheckArr cid msg d).length := by
    rw [hdedup, List.length_map]
  have htot : (playData2 cid msg d).p1Moves.length +
      (playData2 cid msg d).p2Moves.length =
      d.p1Moves.length + d.p2Moves.length + 1 := by
    by_cases h2 : cid = d.p2Id
    · have h1 : cid ≠ d.p1Id := fun hc => hne (hc ▸ h2)
      rw [playData2_p2Moves cid msg d h2, playData2_p1Moves_of_ne cid msg d h1]
      simp
      omega
    · have h1 : cid = d.p1Id := by tauto
      rw [playData2_p1Moves cid msg d h1, playData2_p2Moves_of_ne cid msg d h2]
      simp
      omega
  have hwin : (_WINNING_COMBOS.any (fun combo => combo.all (fun p =>
      (((playCheckArr cid msg d).map pyInt).dedup).contains p)) = true) ↔
      ∃ combo ∈ _WINNING_COMBOS, ∀ p ∈ combo,
        p ∈ (playCheckArr cid msg d).map pyInt := by
    rw [hdedup]
    simp
  have hpd : playDecision cid msg d =
      if 3 ≤ (playCheckArr cid msg d).length then
        if ∃ combo ∈ _WINNING_COMBOS, ∀ p ∈ combo,
            p ∈ (playCheckArr cid msg d).map pyInt then "won"
        else if d.p1Moves.length + d.p2Moves.length + 1 = 9 then "tied"
        else ""
      else "" := by
    rw [playDecision, hlen, htot, if_congr Iff.rfl (if_congr hwin rfl rfl) rfl]
  rw [hpd]
  by_cases hn : 3 ≤ (playCheckArr cid msg d).length
  · by_cases hw : ∃ combo ∈ _WINNING_COMBOS, ∀ p ∈ combo,
        p ∈ (playCheckArr cid msg d).map pyInt
    · rw [if_pos hn, if_pos hw]
      exact ⟨fun h => absurd hn (by omega), iff_of_true rfl ⟨hn, hw⟩,
        iff_of_false (by decide) (fun h => h.2.1 hw), Or.inr (Or.inl rfl)⟩
    · rw [if_pos hn, if_neg hw]
      by_cases ht : d.p1Moves.length + d.p2Moves.length + 1 = 9
      · rw [if_pos ht]
        exact ⟨fun h => absurd hn (by omega), iff_of_false (by decide) (fun h => hw h.2),
          iff_of_true rfl ⟨hn, hw, ht⟩, Or.inr (Or.inr rfl)⟩
      · rw [if_neg ht]
        exact ⟨fun h => rfl, iff_of_false (by decide) (fun h => hw h.2),
          iff_of_false (by decide) (fun h => ht h.2.2), Or.inl rfl⟩
  · rw [if_neg hn]
    exact ⟨fun h => rfl, iff_of_false (by decide) (fun h => hn h.1),
      iff_of_false (by decide) (fun h => hn h.1), Or.inl rfl⟩

/-- Witness for C1: the top-row win — player one `"A"` holds `0,1` and plays
`"2"`, its third move, and the decision is `"won"` with the triple `[0,1,2]`
inside its move set. -/
theorem C1_outcome_evaluation_witness :
    ((playCheckArr "A" "2" ⟨[2], "A", "B", ["0", "1"], ["3", "4"], none⟩).length < 3 →
      ("won" : String) = "") ∧
    (("won" : String) = "won" ↔
      3 ≤ (playCheckArr "A" "2" ⟨[2], "A", "B", ["0", "1"], ["3", "4"], none⟩).length ∧
      ∃ combo ∈ _WINNING_COMBOS, ∀ p ∈ combo,
        p ∈ (playCheckArr "A" "2" ⟨[2], "A", "B", ["0", "1"], ["3", "4"], none⟩).map pyInt) ∧
    (("won" : String) = "tied" ↔
      3 ≤ (playCheckArr "A" "2" ⟨[2], "A", "B", ["0", "1"], ["3", "4"], none⟩).length ∧
      ¬(∃ combo ∈ _WINNING_COMBOS, ∀ p ∈ combo,
        p ∈ (playCheckArr "A" "2" ⟨[2], "A", "B", ["0", "1"], ["3", "4"], none⟩).map pyInt) ∧
      (["0", "1"] : List String).length + (["3", "4"] : List String).length + 1 = 9) ∧
    (("won" : String) = "" ∨ ("won" : String) = "won" ∨ ("won" : String) = "tied") :=
  C1_outcome_evaluation "A" "2" ⟨[2], "A", "B", ["0", "1"], ["3", "4"], none⟩
    [⟨"A", "0;0,1"⟩, ⟨"B", "1;3,4"⟩] "won" [⟨"A", "2"⟩, ⟨"B", "2"⟩]
    ⟨[0, 1, 2], "", "", [], [], some ⟨"GAME", "A has won against B!"⟩⟩
    (by decide) (by decide) (by decide) (by decide) (by decide) (by decide) (by decide)

/-! ### Store lemmas for the role invariant (C2, C5, C10) -/

/-- Number of rows whose `connType` starts with a given role character. -/
def countType (tbl : Store) (ch : Char) : Nat :=
  (tbl.filter (fun c => pyFirst c.connType = ch)).length

/-- The registry invariant behind claims C2, C5 and C10: one row per
connection id (so a connection holds exactly the one role its row encodes),
at most one player-one row, at most one player-two row, and every player row
carries a nonempty connection id. -/
def StoreInv (tbl : Store) : Prop :=
  (tbl.map Conn.connectionId).Nodup ∧
  countType tbl '0' ≤ 1 ∧ countType tbl '1' ≤ 1 ∧
  ∀ c ∈ tbl, (pyFirst c.connType = '0' ∨ pyFirst c.connType = '1') →
    c.connectionId ≠ ""

/-- The new row is in the upserted table. -/
theorem mem_put_self (tbl : Store) (cid ct : String) :
    (⟨cid, ct⟩ : Conn) ∈ put_item tbl cid ct := by
  induction tbl with
  | nil => simp [put_item]
  | cons c rest ih =>
    rw [put_item]
    split
    · simp
    · simp [ih]

/-- Any row of the upserted table is the new row or an old row. -/
theorem mem_put (tbl : Store) (cid ct : String) (c2 : Conn)
    (h : c2 ∈ put_item tbl cid ct) : c2 = ⟨cid, ct⟩ ∨ c2 ∈ tbl := by
  induction tbl with
  | nil => simpa [put_item] using h
  | cons c rest ih =>
    rw [put_item] at h
    split at h
    · rcases List.mem_cons.mp h with h2 | h2
      · exact Or.inl h2
      · exact Or.inr (List.mem_cons.mpr (Or.inr h2))
    · rcases List.mem_cons.mp h with h2 | h2
      · exact Or.inr (List.mem_cons.mpr (Or.inl h2))
      · rcases ih h2 with h3 | h3
        · exact Or.inl h3
        · exact Or.inr (List.mem_cons.mpr (Or.inr h3))

/-- Any key of the upserted table is the new key or an old key. -/
theorem mem_keys_put (tbl : Store) (cid ct : String) (x : String)
    (h : x ∈ (put_item tbl cid ct).map Conn.connectionId) :
    x = cid ∨ x ∈ tbl.map Conn.connectionId := by
  rcases List.mem_map.mp h with ⟨c2, hc2, hx⟩
  rcases mem_put tbl cid ct c2 hc2 with h2 | h2
  · left
    rw [← hx, h2]
  · right
    exact List.mem_map.mpr ⟨c2, h2, hx⟩

/-- Upserting preserves key uniqueness. -/
theorem keys_nodup_put (tbl : Store) (cid ct : String)
    (h : (tbl.map Conn.connectionId).Nodup) :
    ((put_item tbl cid ct).map Conn.connectionId).Nodup := by
  induction tbl with
  | nil => simp [put_item]
  | cons c rest ih =>
    rw [put_item]
    rw [List.map_cons, List.nodup_cons] at h
    split
    · rename_i hc
      rw [List.map_cons, List.nodup_cons]
      exact ⟨by rw [← hc]; exact h.1, h.2⟩
    · rename_i hc
      rw [List.map_cons, List.nodup_cons]
      refine ⟨fun hmem => ?_, ih h.2⟩
      rcases mem_keys_put rest cid ct c.connectionId hmem with h2 | h2
      · exact hc h2
      · exact h.1 h2

/-- Unfolding of the role count over a first row. -/
theorem countType_cons (c : Conn) (rest : Store) (ch : Char) :
    countType (c :: rest) ch =
      (if pyFirst c.connType = ch then 1 else 0) + countType rest ch := by
  simp only [countType, List.filter_cons]
  split <;> rename_i h <;> simp at h <;> simp [h] <;> omega

/-- The empty table has no rows of any role. -/
theorem countType_nil (ch : Char) : countType [] ch = 0 := rfl

/-- A table with no `ch` rows has `ch` count zero. -/
theorem countType_eq_zero (tbl : Store) (ch : Char)
    (h : ∀ c ∈ tbl, pyFirst c.connType ≠ ch) : countType tbl ch = 0 := by
  simp only [countType, List.length_eq_zero, List.filter_eq_nil_iff]
  intro c hc
  simp [h c hc]

/-- An upsert whose row is not of role `ch` cannot increase the `ch` count. -/
theorem countType_put_le (tbl : Store) (cid ct : String) (ch : Char)
    (hct : pyFirst ct ≠ ch) :
    countType (put_item tbl cid ct) ch ≤ countType tbl ch := by
  induction tbl with
  | nil =>
    rw [put_item, countType_cons, countType_nil]
    simp [hct]
  | cons c rest ih =>
    rw [put_item]
    split
    · rw [countType_cons, countType_cons]
      by_cases hc : pyFirst c.connType = ch <;> simp [hct, hc]
    · rw [countType_cons, countType_cons]
      exact Nat.add_le_add_left ih _

/-- An upsert into a table with no `ch` rows leaves at most one `ch` row. -/
theorem countType_put_single (tbl : Store) (cid ct : String) (ch : Char)
    (h : ∀ c ∈ tbl, pyFirst c.connType ≠ ch) :
    countType (put_item tbl cid ct) ch ≤ 1 := by
  induction tbl with
  | nil =>
    rw [put_item, countType_cons, countType_nil]
    by_cases hf : pyFirst ct = ch <;> simp [hf]
  | cons c rest ih =>
    have hc0 : pyFirst c.connType ≠ ch := h c (by simp)
    rw [put_item]
    split
    · have hrest : countType rest ch = 0 :=
        countType_eq_zero rest ch (fun x hx => h x (by simp [hx]))
      rw [countType_cons, hrest]
      by_cases hf : pyFirst ct = ch <;> simp [hf]
    · have hrec := ih (fun x hx => h x (by simp [hx]))
      rw [countType_cons]
      simp only [hc0, if_false]
      omega

/-- Replacing a row by one of identical `ch`-role membership keeps the `ch`
count, given unique keys. -/
theorem countType_put_same (tbl : Store) (cid ct : String) (ch : Char)
    (hkeys : (tbl.map Conn.connectionId).Nodup) (r : Conn) (hr : r ∈ tbl)
    (hrid : r.connectionId = cid)
    (hflag : (pyFirst r.connType = ch) ↔ (pyFirst ct = ch)) :
    countType (put_item tbl cid ct) ch = countType tbl ch := by
  induction tbl with
  | nil => exact absurd hr (by simp)
  | cons c rest ih =>
    rw [List.map_cons, List.nodup_cons] at hkeys
    rw [put_item]
    split
    · rename_i hc
      have hcr : c = r := by
        rcases List.mem_cons.mp hr with h2 | h2
        · exact h2.symm
        · exact absurd (List.mem_map.mpr ⟨r, h2, by rw [hrid, ← hc]⟩) hkeys.1
      rw [countType_cons, countType_cons]
      by_cases hf : pyFirst ct = ch
      · have hrf : pyFirst c.connType = ch := by rw [hcr]; exact hflag.mpr hf
        simp [hf, hrf]
      · have hrf : pyFirst c.connType ≠ ch := by
          rw [hcr]
          exact fun h2 => hf (hflag.mp h2)
        simp [hf, hrf]
    · rename_i hc
      have hrrest : r ∈ rest := by
        rcases List.mem_cons.mp hr with h2 | h2
        · exact absurd (by rw [← h2, hrid]) hc
        · exact h2
      rw [countType_cons, countType_cons, ih hkeys.2 hrrest]

/-- Deleting rows (a filter) cannot increase a count. -/
theorem countType_filter_le (tbl : Store) (q : Conn → Bool) (ch : Char) :
    countType (tbl.filter q) ch ≤ countType tbl ch := by
  induction tbl with
  | nil => simp [countType]
  | cons c rest ih =>
    rw [List.filter_cons]
    by_cases hq : q c = true
    · rw [if_pos hq, countType_cons, countType_cons]
      exact Nat.add_le_add_left ih _
    · rw [if_neg hq, countType_cons]
      omega

/-! ### Scan loop lemmas -/

/-- A scan step never changes the player-one fields on a non-player-one
row. -/
theorem scanStep_p1_of_ne (a : ScanAcc) (c : Conn) (h : pyFirst c.connType ≠ '0') :
    (scanStep a c).p1Id = a.p1Id ∧ (scanStep a c).p1Moves = a.p1Moves := by
  rw [scanStep, if_neg h]
  split <;> exact ⟨rfl, rfl⟩

/-- A scan step never changes the player-two fields on a non-player-two
row. -/
theorem scanStep_p2_of_ne (a : ScanAcc) (c : Conn) (h : pyFirst c.connType ≠ '1') :
    (scanStep a c).p2Id = a.p2Id ∧ (scanStep a c).p2Moves = a.p2Moves := by
  rw [scanStep]
  by_cases h0 : pyFirst c.connType = '0'
  · rw [if_pos h0]
    exact ⟨rfl, rfl⟩
  · rw [if_neg h0, if_neg h]
    exact ⟨rfl, rfl⟩

/-- Scanning a table without player-one rows keeps the accumulator's
player-one fields. -/
theorem foldl_scanStep_p1_of_no0 (l : List Conn) (a : ScanAcc)
    (h : ∀ c ∈ l, pyFirst c.connType ≠ '0') :
    (List.foldl scanStep a l).p1Id = a.p1Id ∧
      (List.foldl scanStep a l).p1Moves = a.p1Moves := by
  induction l generalizing a with
  | nil => exact ⟨rfl, rfl⟩
  | cons c rest ih =>
    rw [List.foldl_cons]
    have hstep := scanStep_p1_of_ne a c (h c (by simp))
    have hrest := ih (scanStep a c) (fun x hx => h x (by simp [hx]))
    exact ⟨hrest.1.trans hstep.1, hrest.2.trans hstep.2⟩

/-- Scanning a table without player-two rows keeps the accumulator's
player-two fields. -/
theorem foldl_scanStep_p2_of_no1 (l : List Conn) (a : ScanAcc)
    (h : ∀ c ∈ l, pyFirst c.connType ≠ '1') :
    (List.foldl scanStep a l).p2Id = a.p2Id ∧
      (List.foldl scanStep a l).p2Moves = a.p2Moves := by
  induction l generalizing a with
  | nil => exact ⟨rfl, rfl⟩
  | cons c rest ih =>
    rw [List.foldl_cons]
    have hstep := scanStep_p2_of_ne a c (h c (by simp))
    have hrest := ih (scanStep a c) (fun x hx => h x (by simp [hx]))
    exact ⟨hrest.1.trans hstep.1, hrest.2.trans hstep.2⟩

/-- The scanned player-one id is the accumulator's or comes from a
player-one row. -/
theorem foldl_scanStep_p1_cases (l : List Conn) (a : ScanAcc) :
    (List.foldl scanStep a l).p1Id = a.p1Id ∨
      ∃ c ∈ l, c.connectionId = (List.foldl scanStep a l).p1Id ∧
        pyFirst c.connType = '0' := by
  induction l generalizing a with
  | nil => exact Or.inl rfl
  | cons c rest ih =>
    rw [List.foldl_cons]
    rcases ih (scanStep a c) with h | ⟨c2, hc2, hid, hfront⟩
    · by_cases h0 : pyFirst c.connType = '0'
      · right
        refine ⟨c, by simp, ?_, h0⟩
        rw [h, scanStep, if_pos h0]
      · left
        rw [h, (scanStep_p1_of_ne a c h0).1]
    · right
      exact ⟨c2, by simp [hc2], hid, hfront⟩

/-- The scanned player-two id is the accumulator's or comes from a
player-two row. -/
theorem foldl_scanStep_p2_cases (l : List Conn) (a : ScanAcc) :
    (List.foldl scanStep a l).p2Id = a.p2Id ∨
      ∃ c ∈ l, c.connectionId = (List.foldl scanStep a l).p2Id ∧
        pyFirst c.connType = '1' := by
  induction l generalizing a with
  | nil => exact Or.inl rfl
  | cons c rest ih =>
    rw [List.foldl_cons]
    rcases ih (scanStep a c) with h | ⟨c2, hc2, hid, hfront⟩
    · by_cases h1 : pyFirst c.connType = '1'
      · right
        refine ⟨c, by simp, ?_, h1⟩
        rw [h, scanStep, if_neg (by rw [h1]; decide), if_pos h1]
      · left
        rw [h, (scanStep_p2_of_ne a c h1).1]
    · right
      exact ⟨c2, by simp [hc2], hid, hfront⟩

/-- When every player-one row has a nonempty id, an empty scanned player-one
id means there was no player-one row at all. -/
theorem foldl_scanStep_p1_empty (l : List Conn) (a : ScanAcc)
    (hids : ∀ c ∈ l, pyFirst c.connType = '0' → c.connectionId ≠ "")
    (hres : (List.foldl scanStep a l).p1Id = "") :
    a.p1Id = "" ∧ ∀ c ∈ l, pyFirst c.connType ≠ '0' := by
  induction l generalizing a with
  | nil => exact ⟨hres, by simp⟩
  | cons c rest ih =>
    rw [List.foldl_cons] at hres
    have hrec := ih (scanStep a c) (fun x hx => hids x (by simp [hx])) hres
    by_cases h0 : pyFirst c.connType = '0'
    · exfalso
      have hcid : (scanStep a c).p1Id = c.connectionId := by
        rw [scanStep, if_pos h0]
      exact hids c (by simp) h0 (by rw [← hcid, hrec.1])
    · refine ⟨by rw [← (scanStep_p1_of_ne a c h0).1, hrec.1], ?_⟩
      intro x hx
      rcases List.mem_cons.mp hx with h2 | h2
      · rw [h2]
        exact h0
      · exact hrec.2 x h2

/-- When every player-two row has a nonempty id, an empty scanned player-two
id means there was no player-two row at all. -/
theorem foldl_scanStep_p2_empty (l : List Conn) (a : ScanAcc)
    (hids : ∀ c ∈ l, pyFirst c.connType = '1' → c.connectionId ≠ "")
    (hres : (List.foldl scanStep a l).p2Id = "") :
    a.p2Id = "" ∧ ∀ c ∈ l, pyFirst c.connType ≠ '1' := by
  induction l generalizing a with
  | nil => exact ⟨hres, by simp⟩
  | cons c rest ih =>
    rw [List.foldl_cons] at hres
    have hrec := ih (scanStep a c) (fun x hx => hids x (by simp [hx])) hres
    by_cases h1 : pyFirst c.connType = '1'
    · exfalso
      have hcid : (scanStep a c).p2Id = c.connectionId := by
        rw [scanStep, if_neg (by rw [h1]; decide), if_pos h1]
      exact hids c (by simp) h1 (by rw [← hcid, hrec.1])
    · refine ⟨by rw [← (scanStep_p2_of_ne a c h1).1, hrec.1], ?_⟩
      intro x hx
      rcases List.mem_cons.mp hx with h2 | h2
      · rw [h2]
        exact h1
      · exact hrec.2 x h2

/-- When the table holds exactly one player-two row, the scan reports its id
and decoded move list. -/
theorem foldl_scanStep_p2_unique (l : List Conn) (a : ScanAcc) (r : Conn)
    (hr : r ∈ l) (hfront : pyFirst r.connType = '1')
    (huniq : ∀ c ∈ l, pyFirst c.connType = '1' → c = r) :
    (List.foldl scanStep a l).p2Id = r.connectionId ∧
      (List.foldl scanStep a l).p2Moves = movesOf r.connType := by
  induction l generalizing a with
  | nil => exact absurd hr (by simp)
  | cons c rest ih =>
    rw [List.foldl_cons]
    by_cases hcr : r ∈ rest
    · exact ih (scanStep a c) hcr (fun x hx h1 => huniq x (by simp [hx]) h1)
    · have hceq : c = r := by
        rcases List.mem_cons.mp hr with h2 | h2
        · exact h2.symm
        · exact absurd h2 hcr
      have hnorest : ∀ x ∈ rest, pyFirst x.connType ≠ '1' := by
        intro x hx h1
        exact hcr ((huniq x (by simp [hx]) h1) ▸ hx)
      have hstep : (scanStep a c).p2Id = r.connectionId ∧
          (scanStep a c).p2Moves = movesOf r.connType := by
        rw [hceq, scanStep, if_neg (by rw [hfront]; decide), if_pos hfront]
        exact ⟨rfl, rfl⟩
      have hrest := foldl_scanStep_p2_of_no1 rest (scanStep a c) hnorest
      exact ⟨hrest.1.trans hstep.1, hrest.2.trans hstep.2⟩

/-- When the table holds exactly one player-one row, the scan reports its id
and decoded move list. -/
theorem foldl_scanStep_p1_unique (l : List Conn) (a : ScanAcc) (r : Conn)
    (hr : r ∈ l) (hfront : pyFirst r.connType = '0')
    (huniq : ∀ c ∈ l, pyFirst c.connType = '0' → c = r) :
    (List.foldl scanStep a l).p1Id = r.connectionId ∧
      (List.foldl scanStep a l).p1Moves = movesOf r.connType := by
  induction l generalizing a with
  | nil => exact absurd hr (by simp)
  | cons c rest ih =>
    rw [List.foldl_cons]
    by_cases hcr : r ∈ rest
    · exact ih (scanStep a c) hcr (fun x hx h1 => huniq x (by simp [hx]) h1)
    · have hceq : c = r := by
        rcases List.mem_cons.mp hr with h2 | h2
        · exact h2.symm
        · exact absurd h2 hcr
      have hnorest : ∀ x ∈ rest, pyFirst x.connType ≠ '0' := by
        intro x hx h1
        exact hcr ((huniq x (by simp [hx]) h1) ▸ hx)
      have hstep : (scanStep a c).p1Id = r.connectionId ∧
          (scanStep a c).p1Moves = movesOf r.connType := by
        rw [hceq, scanStep, if_pos hfront]
        exact ⟨rfl, rfl⟩
      have hrest := foldl_scanStep_p1_of_no0 rest (scanStep a c) hnorest
      exact ⟨hrest.1.trans hstep.1, hrest.2.trans hstep.2⟩

/-! ### Role allocation (C2) -/

/-- A player role is currently held when some row's `connType` starts with
its character. -/
def holdsRole (tbl : Store) (ch : Char) : Bool :=
  tbl.any (fun c => pyFirst c.connType = ch)

/-- The scanned `p1Id` field is the fold result. -/
theorem scan_conns_p1Id (tbl : Store) :
    (scan_conns tbl).p1Id = (List.foldl scanStep ⟨"", "", [], []⟩ tbl).p1Id := rfl

/-- The scanned `p2Id` field is the fold result. -/
theorem scan_conns_p2Id (tbl : Store) :
    (scan_conns tbl).p2Id = (List.foldl scanStep ⟨"", "", [], []⟩ tbl).p2Id := rfl

/-- The scanned availability list (lines 37-43). -/
theorem scan_conns_avail (tbl : Store) :
    (scan_conns tbl).avail =
      (if (scan_conns tbl).p1Id = "" then [0] else []) ++
        (if (scan_conns tbl).p2Id = "" then [1] else []) ++ [2] := rfl

/-- Player one is available exactly when the scan found no player-one id. -/
theorem avail_mem0 (tbl : Store) :
    0 ∈ (scan_conns tbl).avail ↔ (scan_conns tbl).p1Id = "" := by
  rw [scan_conns_avail]
  by_cases h1 : (scan_conns tbl).p1Id = "" <;>
    by_cases h2 : (scan_conns tbl).p2Id = "" <;> simp [h1, h2]

/-- Player two is available exactly when the scan found no player-two id. -/
theorem avail_mem1 (tbl : Store) :
    1 ∈ (scan_conns tbl).avail ↔ (scan_conns tbl).p2Id = "" := by
  rw [scan_conns_avail]
  by_cases h1 : (scan_conns tbl).p1Id = "" <;>
    by_cases h2 : (scan_conns tbl).p2Id = "" <;> simp [h1, h2]

/-- The first available role is player one whenever player one is free. -/
theorem avail_headD_p1 (tbl : Store) (h : (scan_conns tbl).p1Id = "") :
    (scan_conns tbl).avail.headD 2 = 0 := by
  rw [scan_conns_avail]
  simp [h]

/-- The first available role is player two when only player one is taken. -/
theorem avail_headD_p2 (tbl : Store) (h1 : (scan_conns tbl).p1Id ≠ "")
    (h2 : (scan_conns tbl).p2Id = "") :
    (scan_conns tbl).avail.headD 2 = 1 := by
  rw [scan_conns_avail]
  simp [h1, h2]

/-- Reduction of the handler's `joinGame` route to the store: upsert the
first available role with an empty move list when a player role is free,
otherwise no store change (lines 96-110). -/
theorem lambda_handler_joinGame_store (tbl : Store) (cid : String) :
    (lambda_handler (.joinGame cid) tbl).store =
      if (scan_conns tbl).p1Id = "" ∨ (scan_conns tbl).p2Id = "" then
        update_item tbl cid (natStr ((scan_conns tbl).avail.headD 2) ++ ";")
      else tbl := by
  by_cases h : (scan_conns tbl).p1Id = "" ∨ (scan_conns tbl).p2Id = ""
  · rw [if_pos h]
    have hg : 0 ∈ (scan_conns tbl).avail ∨ 1 ∈ (scan_conns tbl).avail := by
      rw [avail_mem0, avail_mem1]
      exact h
    simp only [lambda_handler]
    rw [if_pos hg]
  · rw [if_neg h]
    have hg : ¬(0 ∈ (scan_conns tbl).avail ∨ 1 ∈ (scan_conns tbl).avail) := by
      rw [avail_mem0, avail_mem1]
      exact h
    simp only [lambda_handler]
    rw [if_neg hg]

/-- An empty scanned player-one id is the absence of a player-one row (under
nonempty player ids). -/
theorem scan_p1Id_empty_iff (tbl : Store)
    (hids : ∀ c ∈ tbl, pyFirst c.connType = '0' → c.connectionId ≠ "") :
    (scan_conns tbl).p1Id = "" ↔ holdsRole tbl '0' = false := by
  constructor
  · intro h
    have hrec := foldl_scanStep_p1_empty tbl ⟨"", "", [], []⟩ hids h
    simp only [holdsRole, List.any_eq_false, decide_eq_true_eq]
    exact hrec.2
  · intro h
    have hno : ∀ c ∈ tbl, pyFirst c.connType ≠ '0' := by
      simpa [holdsRole, List.any_eq_false] using h
    exact (foldl_scanStep_p1_of_no0 tbl ⟨"", "", [], []⟩ hno).1

/-- An empty scanned player-two id is the absence of a player-two row (under
nonempty player ids). -/
theorem scan_p2Id_empty_iff (tbl : Store)
    (hids : ∀ c ∈ tbl, pyFirst c.connType = '1' → c.connectionId ≠ "") :
    (scan_conns tbl).p2Id = "" ↔ holdsRole tbl '1' = false := by
  constructor
  · intro h
    have hrec := foldl_scanStep_p2_empty tbl ⟨"", "", [], []⟩ hids h
    simp only [holdsRole, List.any_eq_false, decide_eq_true_eq]
    exact hrec.2
  · intro h
    have hno : ∀ c ∈ tbl, pyFirst c.connType ≠ '1' := by
      simpa [holdsRole, List.any_eq_false] using h
    exact (foldl_scanStep_p2_of_no1 tbl ⟨"", "", [], []⟩ hno).1

/-- Claim C2: `joinGame(connectionId)` assigns the first available role in
the fixed priority order player-one, player-two — a role being available
exactly when no row currently holds it — by persisting the role's encoding
with an empty move sequence (`"0;"` or `"1;"`) under the caller's key; when
both player roles are occupied the store is untouched.  Stated for tables
whose player rows carry nonempty ids, as every reachable table provides. -/
theorem C2_join_assignment (tbl : Store) (cid : String)
    (hids : ∀ c ∈ tbl, (pyFirst c.connType = '0' ∨ pyFirst c.connType = '1') →
      c.connectionId ≠ "") :
    (holdsRole tbl '0' = false →
      (lambda_handler (.joinGame cid) tbl).store = update_item tbl cid "0;") ∧
    (holdsRole tbl '0' = true → holdsRole tbl '1' = false →
      (lambda_handler (.joinGame cid) tbl).store = update_item tbl cid "1;") ∧
    (holdsRole tbl '0' = true → holdsRole tbl '1' = true →
      (lambda_handler (.joinGame cid) tbl).store = tbl) ∧
    movesOf "0;" = [] ∧ movesOf "1;" = [] ∧
    roleOf "0;" = 0 ∧ roleOf "1;" = 1 := by
  have hids0 : ∀ c ∈ tbl, pyFirst c.connType = '0' → c.connectionId ≠ "" :=
    fun c hc h => hids c hc (Or.inl h)
  have hids1 : ∀ c ∈ tbl, pyFirst c.connType = '1' → c.connectionId ≠ "" :=
    fun c hc h => hids c hc (Or.inr h)
  rw [lambda_handler_joinGame_store]
  refine ⟨fun h0 => ?_, fun h0 h1 => ?_, fun h0 h1 => ?_,
    by decide, by decide, by decide, by decide⟩
  · have hp1 : (scan_conns tbl).p1Id = "" := (scan_p1Id_empty_iff tbl hids0).mpr h0
    rw [if_pos (Or.inl hp1), avail_headD_p1 tbl hp1,
      show natStr 0 ++ ";" = "0;" from by decide]
  · have hp1 : (scan_conns tbl).p1Id ≠ "" := by
      intro hc
      rw [(scan_p1Id_empty_iff tbl hids0).mp hc] at h0
      exact Bool.noConfusion h0
    have hp2 : (scan_conns tbl).p2Id = "" := (scan_p2Id_empty_iff tbl hids1).mpr h1
    rw [if_pos (Or.inr hp2), avail_headD_p2 tbl hp1 hp2,
      show natStr 1 ++ ";" = "1;" from by decide]
  · have hp1 : (scan_conns tbl).p1Id ≠ "" := by
      intro hc
      rw [(scan_p1Id_empty_iff tbl hids0).mp hc] at h0
      exact Bool.noConfusion h0
    have hp2 : (scan_conns tbl).p2Id ≠ "" := by
      intro hc
      rw [(scan_p2Id_empty_iff tbl hids1).mp hc] at h1
      exact Bool.noConfusion h1
    rw [if_neg (not_or.mpr ⟨hp1, hp2⟩)]

/-- Witness for C2: a lone spectator `"A"` joins and is assigned player one
with the empty move list `"0;"`; a game with `"A"` as player one and `"B"` a
spectator assigns `"B"` player two; a full game makes join a no-op. -/
theorem C2_join_assignment_witness :
    ((holdsRole [(⟨"A", "2"⟩ : Conn)] '0' = false →
      (lambda_handler (.joinGame "A") [(⟨"A", "2"⟩ : Conn)]).store =
        update_item [(⟨"A", "2"⟩ : Conn)] "A" "0;") ∧
    (holdsRole [(⟨"A", "2"⟩ : Conn)] '0' = true →
      holdsRole [(⟨"A", "2"⟩ : Conn)] '1' = false →
      (lambda_handler (.joinGame "A") [(⟨"A", "2"⟩ : Conn)]).store =
        update_item [(⟨"A", "2"⟩ : Conn)] "A" "1;") ∧
    (holdsRole [(⟨"A", "2"⟩ : Conn)] '0' = true →
      holdsRole [(⟨"A", "2"⟩ : Conn)] '1' = true →
      (lambda_handler (.joinGame "A") [(⟨"A", "2"⟩ : Conn)]).store =
        [(⟨"A", "2"⟩ : Conn)]) ∧
    movesOf "0;" = [] ∧ movesOf "1;" = [] ∧
    roleOf "0;" = 0 ∧ roleOf "1;" = 1) ∧
    holdsRole [(⟨"A", "2"⟩ : Conn)] '0' = false ∧
    (lambda_handler (.joinGame "B") [⟨"A", "0;"⟩, ⟨"B", "2"⟩]).store =
      update_item [(⟨"A", "0;"⟩ : Conn), ⟨"B", "2"⟩] "B" "1;" ∧
    (lambda_handler (.joinGame "C") [⟨"A", "0;"⟩, ⟨"B", "1;"⟩]).store =
      [(⟨"A", "0;"⟩ : Conn), ⟨"B", "1;"⟩] :=
  ⟨C2_join_assignment [⟨"A", "2"⟩] "A" (by decide), by decide,
    (C2_join_assignment [⟨"A", "0;"⟩, ⟨"B", "2"⟩] "B" (by decide)).2.1
      (by decide) (by decide),
    ((C2_join_assignment [⟨"A", "0;"⟩, ⟨"B", "1;"⟩] "C" (by decide)).2.2.1
      (by decide) (by decide))⟩

/-! ### Rejoin switches role (C10) -/

/-- Under unique keys, a row of the upserted table is the new row or an old
row under a different key. -/
theorem mem_put_keyed (tbl : Store) (cid ct : String)
    (hkeys : (tbl.map Conn.connectionId).Nodup) (c2 : Conn)
    (h : c2 ∈ put_item tbl cid ct) :
    c2 = ⟨cid, ct⟩ ∨ (c2 ∈ tbl ∧ c2.connectionId ≠ cid) := by
  induction tbl with
  | nil => exact Or.inl (by simpa [put_item] using h)
  | cons c rest ih =>
    rw [List.map_cons, List.nodup_cons] at hkeys
    rw [put_item] at h
    split at h
    · rename_i hc
      rcases List.mem_cons.mp h with h2 | h2
      · exact Or.inl h2
      · refine Or.inr ⟨List.mem_cons.mpr (Or.inr h2), fun he => ?_⟩
        exact hkeys.1 (List.mem_map.mpr ⟨c2, h2, by rw [he, ← hc]⟩)
    · rename_i hc
      rcases List.mem_cons.mp h with h2 | h2
      · exact Or.inr ⟨List.mem_cons.mpr (Or.inl h2), by rw [h2]; exact hc⟩
      · rcases ih hkeys.2 h2 with h3 | ⟨h4, h5⟩
        · exact Or.inl h3
        · exact Or.inr ⟨List.mem_cons.mpr (Or.inr h4), h5⟩

/-- A table containing a `ch` row has positive `ch` count. -/
theorem countType_pos (tbl : Store) (ch : Char) (b : Conn) (hb : b ∈ tbl)
    (hfb : pyFirst b.connType = ch) : 1 ≤ countType tbl ch := by
  have hmem : b ∈ tbl.filter (fun c => pyFirst c.connType = ch) :=
    List.mem_filter.mpr ⟨hb, by simp [hfb]⟩
  have := List.length_pos.mpr (List.ne_nil_of_mem hmem)
  simpa [countType] using this

/-- With at most one `ch` row, any two `ch` rows coincide. -/
theorem countType_le_one_unique (tbl : Store) (ch : Char)
    (h : countType tbl ch ≤ 1) (a : Conn) (ha : a ∈ tbl)
    (hfa : pyFirst a.connType = ch) (b : Conn) (hb : b ∈ tbl)
    (hfb : pyFirst b.connType = ch) : a = b := by
  induction tbl with
  | nil => exact absurd ha (by simp)
  | cons c rest ih =>
    rw [countType_cons] at h
    rcases List.mem_cons.mp ha with rfl | ha2 <;> rcases List.mem_cons.mp hb with h2 | hb2
    · exact h2.symm
    · exfalso
      rw [if_pos hfa] at h
      have := countType_pos rest ch b hb2 hfb
      omega
    · exfalso
      rw [← h2, if_pos hfb] at h
      have := countType_pos rest ch a ha2 hfa
      omega
    · exact ih (by omega) ha2 hb2

/-- Claim C10: a connection currently holding player one that calls
`joinGame` while player two is free is reassigned to player two with an
empty move sequence — the store update writes `"1;"` under its key, and the
re-scanned registry shows player one unoccupied (and available again), the
caller as player two, and both move lists empty, the caller's previous moves
discarded — and symmetrically, a connection currently holding player two
that calls `joinGame` while player one is free is reassigned to player one:
`"0;"` is written under its key and the re-scan shows the caller as player
one with no moves, its previous moves discarded, and player two unoccupied
(and available again).  Stated over any registry satisfying the store
invariant. -/
theorem C10_rejoin_switches_role (tbl : Store) (cid : String)
    (hcid : cid ≠ "") (hinv : StoreInv tbl) :
    ((scan_conns tbl).p1Id = cid → (scan_conns tbl).p2Id = "" →
      (lambda_handler (.joinGame cid) tbl).store = update_item tbl cid "1;" ∧
      scan_conns ((lambda_handler (.joinGame cid) tbl).store) =
        ⟨[0, 2], "", cid, [], []⟩) ∧
    ((scan_conns tbl).p2Id = cid → (scan_conns tbl).p1Id = "" →
      (lambda_handler (.joinGame cid) tbl).store = update_item tbl cid "0;" ∧
      scan_conns ((lambda_handler (.joinGame cid) tbl).store) =
        ⟨[1, 2], cid, "", [], []⟩) := by
  obtain ⟨hkeys, hc0, hc1, hids⟩ := hinv
  constructor
  · intro hp1 hp2
    have hp1ne : (scan_conns tbl).p1Id ≠ "" := by
      rw [hp1]
      exact hcid
    have hstore : (lambda_handler (.joinGame cid) tbl).store =
        update_item tbl cid "1;" := by
      rw [lambda_handler_joinGame_store, if_pos (Or.inr hp2),
        avail_headD_p2 tbl hp1ne hp2, show natStr 1 ++ ";" = "1;" from by decide]
    refine ⟨hstore, ?_⟩
    rw [hstore, update_item]
    have hno1 : ∀ c ∈ tbl, pyFirst c.connType ≠ '1' :=
      (foldl_scanStep_p2_empty tbl ⟨"", "", [], []⟩
        (fun c hc h => hids c hc (Or.inr h)) hp2).2
    obtain ⟨r0, hr0mem, hr0id, hr0f⟩ :
        ∃ c ∈ tbl, c.connectionId = cid ∧ pyFirst c.connType = '0' := by
      rcases foldl_scanStep_p1_cases tbl ⟨"", "", [], []⟩ with h | ⟨c, hc, hcid2, hf⟩
      · exact absurd (hp1.symm.trans h) hcid
      · exact ⟨c, hc, hcid2.trans hp1, hf⟩
    have hmem : ∀ c2 ∈ put_item tbl cid "1;",
        c2 = ⟨cid, "1;"⟩ ∨ (c2 ∈ tbl ∧ c2.connectionId ≠ cid) :=
      fun c2 hc2 => mem_put_keyed tbl cid "1;" hkeys c2 hc2
    have hno0new : ∀ c2 ∈ put_item tbl cid "1;", pyFirst c2.connType ≠ '0' := by
      intro c2 hc2 hf
      rcases hmem c2 hc2 with rfl | ⟨hin, hne⟩
      · exact absurd hf (show ¬pyFirst "1;" = '0' by decide)
      · have := countType_le_one_unique tbl '0' hc0 c2 hin hf r0 hr0mem hr0f
        exact hne (by rw [this, hr0id])
    have huniq1 : ∀ c2 ∈ put_item tbl cid "1;",
        pyFirst c2.connType = '1' → c2 = ⟨cid, "1;"⟩ := by
      intro c2 hc2 hf
      rcases hmem c2 hc2 with rfl | ⟨hin, hne⟩
      · rfl
      · exact absurd hf (hno1 c2 hin)
    have hfold1 := foldl_scanStep_p1_of_no0 (put_item tbl cid "1;")
      ⟨"", "", [], []⟩ hno0new
    have hfold2 := foldl_scanStep_p2_unique (put_item tbl cid "1;")
      ⟨"", "", [], []⟩ ⟨cid, "1;"⟩ (mem_put_self tbl cid "1;")
      (show pyFirst "1;" = '1' by decide) huniq1
    have h1 : (scan_conns (put_item tbl cid "1;")).p1Id = "" := hfold1.1
    have h2 : (scan_conns (put_item tbl cid "1;")).p2Id = cid := hfold2.1
    have h3 : (scan_conns (put_item tbl cid "1;")).p1Moves = [] := hfold1.2
    have h4 : (scan_conns (put_item tbl cid "1;")).p2Moves = [] :=
      hfold2.2.trans (show movesOf "1;" = [] by decide)
    have hav : (scan_conns (put_item tbl cid "1;")).avail = [0, 2] := by
      rw [scan_conns_avail, h1, h2]
      simp [hcid]
    have hsc : scan_conns (put_item tbl cid "1;") =
        ⟨(scan_conns (put_item tbl cid "1;")).avail,
          (scan_conns (put_item tbl cid "1;")).p1Id,
          (scan_conns (put_item tbl cid "1;")).p2Id,
          (scan_conns (put_item tbl cid "1;")).p1Moves,
          (scan_conns (put_item tbl cid "1;")).p2Moves⟩ := rfl
    rw [hsc, hav, h1, h2, h3, h4]
  · intro hp2 hp1
    have hstore : (lambda_handler (.joinGame cid) tbl).store =
        update_item tbl cid "0;" := by
      rw [lambda_handler_joinGame_store, if_pos (Or.inl hp1),
        avail_headD_p1 tbl hp1, show natStr 0 ++ ";" = "0;" from by decide]
    refine ⟨hstore, ?_⟩
    rw [hstore, update_item]
    have hno0 : ∀ c ∈ tbl, pyFirst c.connType ≠ '0' :=
      (foldl_scanStep_p1_empty tbl ⟨"", "", [], []⟩
        (fun c hc h => hids c hc (Or.inl h)) hp1).2
    obtain ⟨r1, hr1mem, hr1id, hr1f⟩ :
        ∃ c ∈ tbl, c.connectionId = cid ∧ pyFirst c.connType = '1' := by
      rcases foldl_scanStep_p2_cases tbl ⟨"", "", [], []⟩ with h | ⟨c, hc, hcid2, hf⟩
      · exact absurd (hp2.symm.trans h) hcid
      · exact ⟨c, hc, hcid2.trans hp2, hf⟩
    have hmem : ∀ c2 ∈ put_item tbl cid "0;",
        c2 = ⟨cid, "0;"⟩ ∨ (c2 ∈ tbl ∧ c2.connectionId ≠ cid) :=
      fun c2 hc2 => mem_put_keyed tbl cid "0;" hkeys c2 hc2
    have hno1new : ∀ c2 ∈ put_item tbl cid "0;", pyFirst c2.connType ≠ '1' := by
      intro c2 hc2 hf
      rcases hmem c2 hc2 with rfl | ⟨hin, hne⟩
      · exact absurd hf (show ¬pyFirst "0;" = '1' by decide)
      · have := countType_le_one_unique tbl '1' hc1 c2 hin hf r1 hr1mem hr1f
        exact hne (by rw [this, hr1id])
    have huniq0 : ∀ c2 ∈ put_item tbl cid "0;",
        pyFirst c2.connType = '0' → c2 = ⟨cid, "0;"⟩ := by
      intro c2 hc2 hf
      rcases hmem c2 hc2 with rfl | ⟨hin, hne⟩
      · rfl
      · exact absurd hf (hno0 c2 hin)
    have hfold2 := foldl_scanStep_p2_of_no1 (put_item tbl cid "0;")
      ⟨"", "", [], []⟩ hno1new
    have hfold1 := foldl_scanStep_p1_unique (put_item tbl cid "0;")
      ⟨"", "", [], []⟩ ⟨cid, "0;"⟩ (mem_put_self tbl cid "0;")
      (show pyFirst "0;" = '0' by decide) huniq0
    have h1 : (scan_conns (put_item tbl cid "0;")).p1Id = cid := hfold1.1
    have h2 : (scan_conns (put_item tbl cid "0;")).p2Id = "" := hfold2.1
    have h3 : (scan_conns (put_item tbl cid "0;")).p1Moves = [] :=
      hfold1.2.trans (show movesOf "0;" = [] by decide)
    have h4 : (scan_conns (put_item tbl cid "0;")).p2Moves = [] := hfold2.2
    have hav : (scan_conns (put_item tbl cid "0;")).avail = [1, 2] := by
      rw [scan_conns_avail, h1, h2]
      simp [hcid]
    have hsc : scan_conns (put_item tbl cid "0;") =
        ⟨(scan_conns (put_item tbl cid "0;")).avail,
          (scan_conns (put_item tbl cid "0;")).p1Id,
          (scan_conns (put_item tbl cid "0;")).p2Id,
          (scan_conns (put_item tbl cid "0;")).p1Moves,
          (scan_conns (put_item tbl cid "0;")).p2Moves⟩ := rfl
    rw [hsc, hav, h1, h2, h3, h4]

/-- Witness for C10, both directions: player one `"A"` (with a recorded move
`"3"`) rejoins while player two is free and becomes player two with an empty
move list, player one unoccupied again; and player two `"A"` (with a
recorded move `"3"`) rejoins while player one is free and becomes player one
with an empty move list, player two unoccupied again. -/
theorem C10_rejoin_switches_role_witness :
    ((lambda_handler (.joinGame "A") [(⟨"A", "0;3"⟩ : Conn)]).store =
        update_item [(⟨"A", "0;3"⟩ : Conn)] "A" "1;" ∧
      scan_conns ((lambda_handler (.joinGame "A") [(⟨"A", "0;3"⟩ : Conn)]).store) =
        ⟨[0, 2], "", "A", [], []⟩) ∧
    ((lambda_handler (.joinGame "A") [(⟨"A", "1;3"⟩ : Conn)]).store =
        update_item [(⟨"A", "1;3"⟩ : Conn)] "A" "0;" ∧
      scan_conns ((lambda_handler (.joinGame "A") [(⟨"A", "1;3"⟩ : Conn)]).store) =
        ⟨[1, 2], "A", "", [], []⟩) :=
  ⟨(C10_rejoin_switches_role [⟨"A", "0;3"⟩] "A" (by decide)
      ⟨by decide, by decide, by decide, by decide⟩).1 (by decide) (by decide),
    (C10_rejoin_switches_role [⟨"A", "1;3"⟩] "A" (by decide)
      ⟨by decide, by decide, by decide, by decide⟩).2 (by decide) (by decide)⟩

/-! ### The role invariant is preserved by every route (C5) -/

/-- The first character of a player-one moves string. -/
theorem pyFirst_append_0 (x : String) : pyFirst ("0;" ++ x) = '0' := by
  rw [pyFirst, String.toList, String.data_append]
  rfl

/-- The first character of a player-two moves string. -/
theorem pyFirst_append_1 (x : String) : pyFirst ("1;" ++ x) = '1' := by
  rw [pyFirst, String.toList, String.data_append]
  rfl

/-- Upserting a non-player row preserves the invariant. -/
theorem storeInv_put_spectator (tbl : Store) (cid ct : String) (hinv : StoreInv tbl)
    (h0 : pyFirst ct ≠ '0') (h1 : pyFirst ct ≠ '1') :
    StoreInv (put_item tbl cid ct) := by
  refine ⟨keys_nodup_put tbl cid ct hinv.1,
    le_trans (countType_put_le tbl cid ct '0' h0) hinv.2.1,
    le_trans (countType_put_le tbl cid ct '1' h1) hinv.2.2.1, ?_⟩
  intro c hc hrole
  rcases mem_put tbl cid ct c hc with rfl | hin
  · rcases hrole with h | h
    · exact absurd h h0
    · exact absurd h h1
  · exact hinv.2.2.2 c hin hrole

/-- Assigning a free player role to a nonempty id preserves the invariant. -/
theorem storeInv_put_free_role (tbl : Store) (cid ct : String) (ch other : Char)
    (hinv : StoreInv tbl) (hcid : cid ≠ "") (hother : pyFirst ct ≠ other)
    (hno : ∀ c ∈ tbl, pyFirst c.connType ≠ ch) :
    ((put_item tbl cid ct).map Conn.connectionId).Nodup ∧
    countType (put_item tbl cid ct) ch ≤ 1 ∧
    countType (put_item tbl cid ct) other ≤ countType tbl other ∧
    ∀ c ∈ put_item tbl cid ct,
      (pyFirst c.connType = '0' ∨ pyFirst c.connType = '1') →
        c.connectionId ≠ "" := by
  refine ⟨keys_nodup_put tbl cid ct hinv.1,
    countType_put_single tbl cid ct ch hno,
    countType_put_le tbl cid ct other hother, ?_⟩
  intro c hc hrole
  rcases mem_put tbl cid ct c hc with rfl | hin
  · exact hcid
  · exact hinv.2.2.2 c hin hrole

/-- Overwriting an existing player's row with a row of the same role
preserves the invariant. -/
theorem storeInv_put_existing (tbl : Store) (cid ct : String) (hinv : StoreInv tbl)
    (hcid : cid ≠ "") (r : Conn) (hr : r ∈ tbl) (hrid : r.connectionId = cid)
    (hflag0 : (pyFirst r.connType = '0') ↔ (pyFirst ct = '0'))
    (hflag1 : (pyFirst r.connType = '1') ↔ (pyFirst ct = '1')) :
    StoreInv (put_item tbl cid ct) := by
  refine ⟨keys_nodup_put tbl cid ct hinv.1, ?_, ?_, ?_⟩
  · rw [countType_put_same tbl cid ct '0' hinv.1 r hr hrid hflag0]
    exact hinv.2.1
  · rw [countType_put_same tbl cid ct '1' hinv.1 r hr hrid hflag1]
    exact hinv.2.2.1
  · intro c hc hrole
    rcases mem_put tbl cid ct c hc with rfl | hin
    · exact hcid
    · exact hinv.2.2.2 c hin hrole

/-- One handler call preserves the invariant, for any inbound event carrying
a nonempty connection id. -/
theorem storeInv_step (ev : Event) (tbl : Store) (hinv : StoreInv tbl)
    (hcid : ev.connectionId ≠ "") :
    StoreInv (lambda_handler ev tbl).store := by
  cases ev with
  | connect cid =>
    show StoreInv (put_item tbl cid "2")
    exact storeInv_put_spectator tbl cid "2" hinv (by decide) (by decide)
  | disconnect cid =>
    show StoreInv (delete_item tbl cid)
    rw [delete_item]
    refine ⟨List.Nodup.sublist (List.Sublist.map _ (List.filter_sublist tbl)) hinv.1,
      le_trans (countType_filter_le tbl _ '0') hinv.2.1,
      le_trans (countType_filter_le tbl _ '1') hinv.2.2.1, ?_⟩
    intro c hc hrole
    exact hinv.2.2.2 c (List.mem_of_mem_filter hc) hrole
  | sendMessage cid msg => exact hinv
  | joinGame cid =>
    rw [lambda_handler_joinGame_store]
    by_cases h : (scan_conns tbl).p1Id = "" ∨ (scan_conns tbl).p2Id = ""
    · rw [if_pos h]
      by_cases hp1 : (scan_conns tbl).p1Id = ""
      · rw [avail_headD_p1 tbl hp1, show natStr 0 ++ ";" = "0;" from by decide,
          update_item]
        have hno0 := (foldl_scanStep_p1_empty tbl ⟨"", "", [], []⟩
          (fun c hc hf => hinv.2.2.2 c hc (Or.inl hf)) hp1).2
        obtain ⟨hk, hl0, hl1, hid⟩ := storeInv_put_free_role tbl cid "0;" '0' '1'
          hinv hcid (by decide) hno0
        exact ⟨hk, hl0, le_trans hl1 hinv.2.2.1, hid⟩
      · have hp2 : (scan_conns tbl).p2Id = "" := h.resolve_left hp1
        rw [avail_headD_p2 tbl hp1 hp2, show natStr 1 ++ ";" = "1;" from by decide,
          update_item]
        have hno1 := (foldl_scanStep_p2_empty tbl ⟨"", "", [], []⟩
          (fun c hc hf => hinv.2.2.2 c hc (Or.inr hf)) hp2).2
        obtain ⟨hk, hl1, hl0, hid⟩ := storeInv_put_free_role tbl cid "1;" '1' '0'
          hinv hcid (by decide) hno1
        exact ⟨hk, le_trans hl0 hinv.2.1, hl1, hid⟩
    · rw [if_neg h]
      exact hinv
  | makePlay cid msg =>
    rcases hmp : makePlayRoute cid msg (dataOf tbl) tbl with _ | _ | ⟨dec, tbl2, data2⟩
    · rw [lambda_handler_makePlay, hmp]
      exact hinv
    · rw [lambda_handler_makePlay, hmp]
      exact hinv
    · rw [lambda_handler_makePlay, hmp]
      show StoreInv tbl2
      by_cases hdec : dec = ""
      · obtain ⟨htbl2, -⟩ :=
          makePlayRoute_inprogress cid msg (dataOf tbl) tbl dec tbl2 data2 hmp hdec
        obtain ⟨-, helig, -, -⟩ :=
          makePlayRoute_played_decision cid msg (dataOf tbl) tbl dec tbl2 data2 hmp
        rw [htbl2, update_item]
        by_cases h2 : cid = (dataOf tbl).p2Id
        · obtain ⟨r, hrmem, hrid, hrf⟩ :
              ∃ c ∈ tbl, c.connectionId = cid ∧ pyFirst c.connType = '1' := by
            rcases foldl_scanStep_p2_cases tbl ⟨"", "", [], []⟩ with hcase | ⟨c, hc, hcid2, hf⟩
            · exact absurd (h2.trans hcase) hcid
            · exact ⟨c, hc, hcid2.trans h2.symm, hf⟩
          rw [playMovesStr_p2 cid msg (dataOf tbl) h2]
          refine storeInv_put_existing tbl cid _ hinv hcid r hrmem hrid ?_ ?_
          · rw [pyFirst_append_1, hrf]
          · rw [pyFirst_append_1, hrf]
        · have h1 : cid = (dataOf tbl).p1Id := helig.resolve_right h2
          obtain ⟨r, hrmem, hrid, hrf⟩ :
              ∃ c ∈ tbl, c.connectionId = cid ∧ pyFirst c.connType = '0' := by
            rcases foldl_scanStep_p1_cases tbl ⟨"", "", [], []⟩ with hcase | ⟨c, hc, hcid2, hf⟩
            · exact absurd (h1.trans hcase) hcid
            · exact ⟨c, hc, hcid2.trans h1.symm, hf⟩
          rw [playMovesStr_p1 cid msg (dataOf tbl) h2 h1]
          refine storeInv_put_existing tbl cid _ hinv hcid r hrmem hrid ?_ ?_
          · rw [pyFirst_append_0, hrf]
          · rw [pyFirst_append_0, hrf]
      · obtain ⟨htbl2, -⟩ :=
          makePlayRoute_terminal cid msg (dataOf tbl) tbl dec tbl2 data2 hmp hdec
        rw [htbl2, terminalStore, update_item, update_item]
        exact storeInv_put_spectator _ _ "2"
          (storeInv_put_spectator tbl _ "2" hinv (by decide) (by decide))
          (by decide) (by decide)

/-- Handling any event sequence from an invariant-satisfying table keeps the
invariant. -/
theorem storeInv_run (evs : List Event) (tbl : Store) (hinv : StoreInv tbl)
    (hcids : ∀ e ∈ evs, e.connectionId ≠ "") :
    StoreInv (evs.foldl (fun s e => (lambda_handler e s).store) tbl) := by
  induction evs generalizing tbl with
  | nil => exact hinv
  | cons e rest ih =>
    rw [List.foldl_cons]
    exact ih ((lambda_handler e tbl).store)
      (storeInv_step e tbl hinv (hcids e (by simp)))
      (fun x hx => hcids x (by simp [hx]))

/-- Claim C5: for every sequence of inbound events (connect, disconnect,
joinGame, makePlay, sendMessage) whose connection ids are nonempty — as the
transport guarantees — the registry reached from the empty table satisfies
the role invariant: its keys are unique, so every connection has exactly the
one role its single row encodes, and at most one row holds player one and at
most one holds player two at any time (the property holds after every
prefix, each prefix being such a sequence). -/
theorem C5_role_invariant (evs : List Event)
    (hcids : ∀ e ∈ evs, e.connectionId ≠ "") :
    StoreInv (runEvents evs) := by
  rw [runEvents]
  exact storeInv_run evs []
    ⟨by simp, by decide, by decide, by simp⟩ hcids

/-- Witness for C5: a full joined game with one move played satisfies the
invariant. -/
theorem C5_role_invariant_witness :
    StoreInv (runEvents [.connect "A", .joinGame "A", .connect "B",
      .joinGame "B", .makePlay "A" "0", .disconnect "B", .joinGame "C"]) :=
  C5_role_invariant [.connect "A", .joinGame "A", .connect "B",
    .joinGame "B", .makePlay "A" "0", .disconnect "B", .joinGame "C"]
    (by decide)
